import Mathlib

/-!
# Rectangle geometry of `common/base_struct.cpp`

A shallow embedding of the `EDA_RECT` operations defined in
`src/common/base_struct.cpp`, together with the properties the specification
states about them.

Conventions of the embedding

* C++ `int` / `wxCoord` values are modelled as mathematical integers (`Int`).
  Signed overflow is undefined behaviour in C++, so the model describes every
  execution in which no intermediate value leaves the `int` range.
* C++ integer division `a / b` truncates towards zero and is `Int.tdiv`.
* Methods that mutate `*this` become functions returning the new rectangle.
* A `double` is a rational (`ℚ`). The conversion `int → double` is exact. The
  products and sums of `IntersectsCircle` and `IntersectsCircleEdge` are each
  rounded to 53 significant bits by `roundDouble`, so they are exact only
  while they stay below `2 ^ 53`; angles are kept as exact rationals.
-/

/-- The `wxPoint` value type: a pair of `int` coordinates, default `(0, 0)`. -/
structure wxPoint where
  x : Int
  y : Int
  deriving DecidableEq, Repr

/-- The `wxSize` value type: a pair of `int` extents, default `(0, 0)`. -/
structure wxSize where
  x : Int
  y : Int
  deriving DecidableEq, Repr

/-- The data members of `EDA_RECT`: `m_Pos`, `m_Size` and the flag `m_init`. -/
structure EDA_RECT where
  m_Pos : wxPoint
  m_Size : wxSize
  m_init : Bool
  deriving DecidableEq, Repr

/-! ## The type `double` -/

/-- Rounding of a rational to the nearest integer, a tie going to the even
neighbour. -/
def roundHalfEven (m : ℚ) : Int :=
  if m - (⌊m⌋ : Int) < 1 / 2 then ⌊m⌋
  else if 1 / 2 < m - (⌊m⌋ : Int) then ⌊m⌋ + 1
  else if ⌊m⌋ % 2 = 0 then ⌊m⌋ else ⌊m⌋ + 1

/-- The value of the C++ type `double` (binary64, round to nearest, ties to even)
that is nearest to the rational `q`: a `double` keeps 53 significant bits, so
`q` is scaled by the power of two that brings its magnitude into
`[2^52, 2^53)`, rounded to an integer and scaled back. The exponent range is
not limited: the values formed from `int` operands are far from overflow and
underflow. -/
def roundDouble (q : ℚ) : ℚ :=
  if q = 0 then 0
  else (roundHalfEven (q / 2 ^ (Int.log 2 |q| - 52)) : ℚ) * 2 ^ (Int.log 2 |q| - 52)

namespace EDA_RECT

/-! ## Inline members of the class declaration -/

/-- Modelled from the spec: the class declaration of `EDA_RECT` (its header) is
not part of the sources at hand. The default constructor yields the
"empty/unset" rectangle: `wxPoint` and `wxSize` default to `(0, 0)` and the
validity flag is off. -/
def mkDefault : EDA_RECT := ⟨⟨0, 0⟩, ⟨0, 0⟩, false⟩

/-- Modelled from the spec: header accessor, the origin is the position. -/
def GetOrigin (r : EDA_RECT) : wxPoint := r.m_Pos

/-- Modelled from the spec: header accessor, the end corner is
`position + size` (the corner opposite to the origin). -/
def GetEnd (r : EDA_RECT) : wxPoint := ⟨r.m_Pos.x + r.m_Size.x, r.m_Pos.y + r.m_Size.y⟩

/-- Modelled from the spec: header accessor, `m_Pos.x`. -/
def GetLeft (r : EDA_RECT) : Int := r.m_Pos.x

/-- Modelled from the spec: header accessor, `m_Pos.x + m_Size.x`. -/
def GetRight (r : EDA_RECT) : Int := r.m_Pos.x + r.m_Size.x

/-- Modelled from the spec: header accessor, `m_Pos.y`. -/
def GetTop (r : EDA_RECT) : Int := r.m_Pos.y

/-- Modelled from the spec: header accessor, `m_Pos.y + m_Size.y`. -/
def GetBottom (r : EDA_RECT) : Int := r.m_Pos.y + r.m_Size.y

/-- Modelled from the spec: header accessor, `m_Size.x`. -/
def GetWidth (r : EDA_RECT) : Int := r.m_Size.x

/-- Modelled from the spec: header accessor, `m_Size.y`. -/
def GetHeight (r : EDA_RECT) : Int := r.m_Size.y

/-- Modelled from the spec: header accessor, the validity flag. -/
def IsValid (r : EDA_RECT) : Bool := r.m_init

/-- Modelled from the spec: header mutator; sets the position and marks the
rectangle as initialised. -/
def SetOrigin (r : EDA_RECT) (pos : wxPoint) : EDA_RECT :=
  { r with m_Pos := pos, m_init := true }

/-- Modelled from the spec: header mutator; sets the size so that the end
corner becomes `pos`, and marks the rectangle as initialised. -/
def SetEnd (r : EDA_RECT) (pos : wxPoint) : EDA_RECT :=
  { r with m_Size := ⟨pos.x - r.m_Pos.x, pos.y - r.m_Pos.y⟩, m_init := true }

/-! ## `EDA_RECT::Normalize` and `EDA_RECT::Contains` -/

/-- Method `EDA_RECT::Normalize` (base_struct.cpp 265-278): first the `y` axis, then
the `x` axis; a negative extent is negated and the position moved back by the
new (positive) extent. -/
def Normalize (r : EDA_RECT) : EDA_RECT :=
  let r1 : EDA_RECT :=
    if r.m_Size.y < 0 then
      { r with m_Size := ⟨r.m_Size.x, -r.m_Size.y⟩,
               m_Pos := ⟨r.m_Pos.x, r.m_Pos.y - (-r.m_Size.y)⟩ }
    else r
  if r1.m_Size.x < 0 then
    { r1 with m_Size := ⟨-r1.m_Size.x, r1.m_Size.y⟩,
              m_Pos := ⟨r1.m_Pos.x - (-r1.m_Size.x), r1.m_Pos.y⟩ }
  else r1

/-- Method `EDA_RECT::Contains( const wxPoint& )` (base_struct.cpp 287-305). The
validity flag is not consulted. -/
def Contains (r : EDA_RECT) (aPoint : wxPoint) : Bool :=
  let rel_pos : wxPoint := ⟨aPoint.x - r.m_Pos.x, aPoint.y - r.m_Pos.y⟩
  let size : wxSize := r.m_Size
  let sx : Int := if size.x < 0 then -size.x else size.x
  let rx : Int := if size.x < 0 then rel_pos.x + (-size.x) else rel_pos.x
  let sy : Int := if size.y < 0 then -size.y else size.y
  let ry : Int := if size.y < 0 then rel_pos.y + (-size.y) else rel_pos.y
  decide (rx ≥ 0) && decide (ry ≥ 0) && decide (ry ≤ sy) && decide (rx ≤ sx)

/-- Method `EDA_RECT::Contains( const EDA_RECT& )` (base_struct.cpp 308-311). -/
def ContainsRect (r : EDA_RECT) (aRect : EDA_RECT) : Bool :=
  r.Contains aRect.GetOrigin && r.Contains aRect.GetEnd

/-! ## `EDA_RECT::Intersects( const EDA_RECT& )` and `EDA_RECT::Common` -/

/-- Method `EDA_RECT::Intersects( const EDA_RECT& )` (base_struct.cpp 379-407). Both
rectangles are copied and normalized (`me`, `rect`); `left`, `right` and
`bottom` are taken from the normalized copies, while `top` reads the `y`
position of the argument `aRect` itself, as the source does. -/
def Intersects (r : EDA_RECT) (aRect : EDA_RECT) : Bool :=
  if !r.m_init then false
  else
    let me : EDA_RECT := r.Normalize
    let rect : EDA_RECT := aRect.Normalize
    let left : Int := max me.m_Pos.x rect.m_Pos.x
    let right : Int := min (me.m_Pos.x + me.m_Size.x) (rect.m_Pos.x + rect.m_Size.x)
    let top : Int := max me.m_Pos.y aRect.m_Pos.y
    let bottom : Int := min (me.m_Pos.y + me.m_Size.y) (rect.m_Pos.y + rect.m_Size.y)
    if left ≤ right ∧ top ≤ bottom then true else false

/-- Method `EDA_RECT::Common` (base_struct.cpp 717-737): starts from a
default-constructed rectangle and fills it only when the two rectangles
intersect. -/
def Common (r : EDA_RECT) (aRect : EDA_RECT) : EDA_RECT :=
  let r0 : EDA_RECT := mkDefault
  if r.Intersects aRect then
    let originA : wxPoint :=
      ⟨min r.GetOrigin.x r.GetEnd.x, min r.GetOrigin.y r.GetEnd.y⟩
    let originB : wxPoint :=
      ⟨min aRect.GetOrigin.x aRect.GetEnd.x, min aRect.GetOrigin.y aRect.GetEnd.y⟩
    let endA : wxPoint :=
      ⟨max r.GetOrigin.x r.GetEnd.x, max r.GetOrigin.y r.GetEnd.y⟩
    let endB : wxPoint :=
      ⟨max aRect.GetOrigin.x aRect.GetEnd.x, max aRect.GetOrigin.y aRect.GetEnd.y⟩
    let r1 : EDA_RECT := r0.SetOrigin ⟨max originA.x originB.x, max originA.y originB.y⟩
    r1.SetEnd ⟨min endA.x endB.x, min endA.y endB.y⟩
  else r0

/-! ## `EDA_RECT::ClosestPointTo` and `EDA_RECT::Inflate` -/

/-- Method `EDA_RECT::ClosestPointTo` (base_struct.cpp 518-529): per-axis clamp on a
normalized copy. -/
def ClosestPointTo (r : EDA_RECT) (aPoint : wxPoint) : wxPoint :=
  let me : EDA_RECT := r.Normalize
  let nx : Int := max me.GetLeft (min aPoint.x me.GetRight)
  let ny : Int := max me.GetTop (min aPoint.y me.GetBottom)
  ⟨nx, ny⟩

/-- The `x` half of `EDA_RECT::Inflate( wxCoord, wxCoord )`
(base_struct.cpp 595-624). -/
def InflateX (r : EDA_RECT) (dx : Int) : EDA_RECT :=
  if r.m_Size.x ≥ 0 then
    if r.m_Size.x < -2 * dx then
      { r with m_Pos := ⟨r.m_Pos.x + Int.tdiv r.m_Size.x 2, r.m_Pos.y⟩,
               m_Size := ⟨0, r.m_Size.y⟩ }
    else
      { r with m_Pos := ⟨r.m_Pos.x - dx, r.m_Pos.y⟩,
               m_Size := ⟨r.m_Size.x + 2 * dx, r.m_Size.y⟩ }
  else
    if r.m_Size.x > -2 * dx then
      { r with m_Pos := ⟨r.m_Pos.x - Int.tdiv r.m_Size.x 2, r.m_Pos.y⟩,
               m_Size := ⟨0, r.m_Size.y⟩ }
    else
      { r with m_Pos := ⟨r.m_Pos.x + dx, r.m_Pos.y⟩,
               m_Size := ⟨r.m_Size.x - 2 * dx, r.m_Size.y⟩ }

/-- The `y` half of `EDA_RECT::Inflate( wxCoord, wxCoord )`
(base_struct.cpp 626-655). The test of the negative-height branch is
`m_Size.y > 2 * dy`, where the `x` half has `m_Size.x > -2 * dx`. -/
def InflateY (r : EDA_RECT) (dy : Int) : EDA_RECT :=
  if r.m_Size.y ≥ 0 then
    if r.m_Size.y < -2 * dy then
      { r with m_Pos := ⟨r.m_Pos.x, r.m_Pos.y + Int.tdiv r.m_Size.y 2⟩,
               m_Size := ⟨r.m_Size.x, 0⟩ }
    else
      { r with m_Pos := ⟨r.m_Pos.x, r.m_Pos.y - dy⟩,
               m_Size := ⟨r.m_Size.x, r.m_Size.y + 2 * dy⟩ }
  else
    if r.m_Size.y > 2 * dy then
      { r with m_Pos := ⟨r.m_Pos.x, r.m_Pos.y - Int.tdiv r.m_Size.y 2⟩,
               m_Size := ⟨r.m_Size.x, 0⟩ }
    else
      { r with m_Pos := ⟨r.m_Pos.x, r.m_Pos.y + dy⟩,
               m_Size := ⟨r.m_Size.x, r.m_Size.y - 2 * dy⟩ }

/-- Method `EDA_RECT::Inflate( wxCoord dx, wxCoord dy )` (base_struct.cpp 593-658):
the `x` axis is updated first, then the `y` axis. -/
def Inflate (r : EDA_RECT) (dx dy : Int) : EDA_RECT :=
  (r.InflateX dx).InflateY dy

/-- Squared Euclidean distance between two points. -/
def sqDist (a b : wxPoint) : Int := (a.x - b.x) ^ 2 + (a.y - b.y) ^ 2

/-! ## `EDA_RECT::FarthestPointTo`, `IntersectsCircle`, `IntersectsCircleEdge` -/

/-- Method `EDA_RECT::FarthestPointTo` (base_struct.cpp 532-542): on a normalized
copy, the larger of the two distances to the edges, per axis. The value
returned is this pair of distances. -/
def FarthestPointTo (r : EDA_RECT) (aPoint : wxPoint) : wxPoint :=
  let me : EDA_RECT := r.Normalize
  let fx : Int := max (abs (aPoint.x - me.GetLeft)) (abs (aPoint.x - me.GetRight))
  let fy : Int := max (abs (aPoint.y - me.GetTop)) (abs (aPoint.y - me.GetBottom))
  ⟨fx, fy⟩

/-- Method `EDA_RECT::IntersectsCircle` (base_struct.cpp 545-558). `dx`, `dy` and `r`
are the `double` locals of the source: the conversions from `int` are exact, and
each product and the sum of the two squares is rounded to a `double`. -/
def IntersectsCircle (r : EDA_RECT) (aCenter : wxPoint) (aRadius : Int) : Bool :=
  if !r.m_init then false
  else
    let closest : wxPoint := r.ClosestPointTo aCenter
    let dx : ℚ := ((aCenter.x - closest.x : Int) : ℚ)
    let dy : ℚ := ((aCenter.y - closest.y : Int) : ℚ)
    let rr : ℚ := (aRadius : ℚ)
    decide (roundDouble (roundDouble (dx * dx) + roundDouble (dy * dy)) ≤ roundDouble (rr * rr))

/-- Method `EDA_RECT::IntersectsCircleEdge` (base_struct.cpp 561-583). The
normalized copy `me` made by the source is never read and is left out. The outer
radius `aRadius + aWidth / 2` is an `int` expression (truncating division); the
inner radius `(double) aRadius - (double) aWidth / 2` is a `double` one, and
every `double` operation is rounded to a `double`. -/
def IntersectsCircleEdge (r : EDA_RECT) (aCenter : wxPoint) (aRadius aWidth : Int) : Bool :=
  if !r.m_init then false
  else if !r.IntersectsCircle aCenter (aRadius + Int.tdiv aWidth 2) then false
  else
    let farpt : wxPoint := r.FarthestPointTo aCenter
    let fx : ℚ := (farpt.x : ℚ)
    let fy : ℚ := (farpt.y : ℚ)
    let rr : ℚ := roundDouble ((aRadius : ℚ) - roundDouble ((aWidth : ℚ) / 2))
    decide (roundDouble (roundDouble (fx * fx) + roundDouble (fy * fy)) > roundDouble (rr * rr))

/-! ## `EDA_RECT::Merge` -/

/-- Modelled from the spec: header accessor, `m_Pos`. -/
def GetPosition (r : EDA_RECT) : wxPoint := r.m_Pos

/-- Modelled from the spec: header accessor, `m_Size`. -/
def GetSize (r : EDA_RECT) : wxSize := r.m_Size

/-- Method `EDA_RECT::Merge( const EDA_RECT& )` (base_struct.cpp 661-686). An
uninitialised receiver adopts a valid argument and ignores an invalid one; an
initialised receiver is normalized and grown to the normalized copy of the
argument, whose validity flag is not consulted. -/
def Merge (r : EDA_RECT) (aRect : EDA_RECT) : EDA_RECT :=
  if !r.m_init then
    if aRect.IsValid then
      { m_Pos := aRect.GetPosition, m_Size := aRect.GetSize, m_init := true }
    else r
  else
    let me : EDA_RECT := r.Normalize
    let rect : EDA_RECT := aRect.Normalize
    let end0 : wxPoint := me.GetEnd
    let rect_end : wxPoint := rect.GetEnd
    let me1 : EDA_RECT :=
      { me with m_Pos := ⟨min me.m_Pos.x rect.m_Pos.x, min me.m_Pos.y rect.m_Pos.y⟩ }
    let end1 : wxPoint := ⟨max end0.x rect_end.x, max end0.y rect_end.y⟩
    me1.SetEnd end1

/-- Method `EDA_RECT::Merge( const wxPoint& )` (base_struct.cpp 689-708). -/
def MergePoint (r : EDA_RECT) (aPoint : wxPoint) : EDA_RECT :=
  if !r.m_init then
    { m_Pos := aPoint, m_Size := ⟨0, 0⟩, m_init := true }
  else
    let me : EDA_RECT := r.Normalize
    let end0 : wxPoint := me.GetEnd
    let me1 : EDA_RECT :=
      { me with m_Pos := ⟨min me.m_Pos.x aPoint.x, min me.m_Pos.y aPoint.y⟩ }
    let end1 : wxPoint := ⟨max end0.x aPoint.x, max end0.y aPoint.y⟩
    me1.SetEnd end1

/-! ## `EDA_RECT::Intersects( const EDA_RECT&, double )` -/

/-- Modelled from the spec: header accessor `Centre()`, the position plus half
of the size on each axis (the half is an arithmetic shift, that is a floor). -/
def Centre (r : EDA_RECT) : wxPoint := ⟨r.m_Pos.x + r.m_Size.x / 2, r.m_Pos.y + r.m_Size.y / 2⟩

/-- Modelled from the spec: the helper `NORMALIZE_ANGLE_POS` is declared in a
header that is not among the sources. Angles are in tenths of a degree and the
helper brings an angle into `[0, 3600)` by adding or subtracting full turns. -/
def NORMALIZE_ANGLE_POS (aRot : ℚ) : ℚ := aRot - 3600 * (⌊aRot / 3600⌋ : Int)

/-- The constant `ROT_EPS` of `Intersects( const EDA_RECT&, double )`. -/
def ROT_EPS : ℚ := 1 / 1000000000

/-- The table `ROT_PARALLEL` of `Intersects( const EDA_RECT&, double )`. -/
def ROT_PARALLEL : List ℚ := [-3600, -1800, 0, 1800, 3600]

/-- The table `ROT_PERPENDICULAR` of `Intersects( const EDA_RECT&, double )`. -/
def ROT_PERPENDICULAR : List ℚ := [-2700, -900, 0, 900, 2700]

/-- Method `EDA_RECT::Intersects( const EDA_RECT& aRect, double aRot )`
(base_struct.cpp 410-515). The two fast paths are embedded as written: the loop
over the five entries of `ROT_PARALLEL`, then the loop over the first four
entries of `ROT_PERPENDICULAR`, which builds `rotRect` from a default
rectangle by `SetOrigin( aRect.Centre() )` and
`Inflate( aRect.GetHeight(), aRect.GetWidth() )`. The remaining path (tests A, B
and C, which rotate points with trigonometric functions) is the parameter
`generalCase`. -/
def IntersectsRotated (generalCase : EDA_RECT → EDA_RECT → ℚ → Bool)
    (r : EDA_RECT) (aRect : EDA_RECT) (aRot : ℚ) : Bool :=
  if !r.m_init then false
  else
    let rot : ℚ := NORMALIZE_ANGLE_POS aRot
    if ROT_PARALLEL.any (fun a => decide (abs (rot - a) < ROT_EPS)) then
      r.Intersects aRect
    else if (ROT_PERPENDICULAR.take 4).any (fun a => decide (abs (rot - a) < ROT_EPS)) then
      let rotRect : EDA_RECT :=
        (mkDefault.SetOrigin aRect.Centre).Inflate aRect.GetHeight aRect.GetWidth
      r.Intersects rotRect
    else generalCase r aRect rot

/-- The rectangle the specification describes for a rotation by 90 degrees: the
axis-aligned rectangle with the same centre as `b`, width `b.GetHeight` and
height `b.GetWidth`. -/
def rot90Spec (b : EDA_RECT) : EDA_RECT :=
  ⟨⟨b.Centre.x - b.GetHeight / 2, b.Centre.y - b.GetWidth / 2⟩, ⟨b.GetHeight, b.GetWidth⟩, true⟩

end EDA_RECT

/-!
# Segment geometry of `libs/kimath/src/geometry/seg.cpp`

The member functions of `SEG` defined in `seg.cpp`. The class declaration
(with the point overloads `NearestPoint( const VECTOR2I& )` and
`SquaredDistance( const VECTOR2I& )`), the vector type and the helper `rescale`
live in headers and are modelled. `ecoord` (a 64-bit integer) is `Int`.
-/

/-- The `VECTOR2I` value type: a pair of `int` coordinates. -/
structure VECTOR2I where
  x : Int
  y : Int
  deriving DecidableEq, Repr

namespace VECTOR2I

/-- Modelled from the spec: the vector type is declared in a header that is not
among the sources; componentwise difference `a - b`. -/
def sub (a b : VECTOR2I) : VECTOR2I := ⟨a.x - b.x, a.y - b.y⟩

/-- Modelled from the spec: exact cross product in the widened type. -/
def Cross (a b : VECTOR2I) : Int := a.x * b.y - a.y * b.x

/-- Modelled from the spec: exact dot product in the widened type. -/
def Dot (a b : VECTOR2I) : Int := a.x * b.x + a.y * b.y

/-- Modelled from the spec: exact squared norm in the widened type. -/
def SquaredEuclideanNorm (a : VECTOR2I) : Int := a.x * a.x + a.y * a.y

/-- Modelled from the spec: `ECOORD_MAX`, the largest value of the widened
(64-bit signed) type. -/
def ECOORD_MAX : Int := 2 ^ 63 - 1

end VECTOR2I

/-- Modelled from the spec: `rescale` is declared in a header that is not among
the sources. It scales `aValue` by the rational `aNumerator / aDenominator` in
widened integer arithmetic. How the quotient is rounded is stated neither by
the specification nor by the sources: this definition takes the C++ integer
quotient, which truncates, and `rescaleNearest` is the variant that rounds to
nearest. A scaling whose result is an integer is exact under both. Properties
that depend on the rounding are stated with `rescale` as a parameter
(`IntersectWith`, `ContainsWith`) for every function satisfying `IsRescale`. -/
def rescale (aNumerator aValue aDenominator : Int) : Int :=
  Int.tdiv (aNumerator * aValue) aDenominator

/-- What every integer `rescale` is taken to guarantee when its rounding is left
open: for a non-zero denominator the result is less than one away from the
exact quotient `aNumerator * aValue / aDenominator`. -/
def IsRescale (R : Int → Int → Int → Int) : Prop :=
  ∀ n v d : Int, d ≠ 0 → |R n v d * d - n * v| < |d|

/-- The data members of `SEG`: the end points `A` and `B`. -/
structure SEG where
  A : VECTOR2I
  B : VECTOR2I
  deriving DecidableEq, Repr

namespace SEG

/-- Modelled from the spec: `NearestPoint( const VECTOR2I& )` is defined in the
class header, which is not among the sources. The nearest point of the segment
to `aP` is the perpendicular projection of `aP` on the supporting line, clamped
to the end points; a zero-length segment is treated as its point. Dot products
are exact and the projection is scaled back with `rescale`. -/
def NearestPointPt (s : SEG) (aP : VECTOR2I) : VECTOR2I :=
  let d : VECTOR2I := s.B.sub s.A
  let l_squared : Int := d.Dot d
  if l_squared = 0 then s.A
  else
    let t : Int := d.Dot (aP.sub s.A)
    if t < 0 then s.A
    else if t > l_squared then s.B
    else ⟨s.A.x + rescale t d.x l_squared, s.A.y + rescale t d.y l_squared⟩

/-- Modelled from the spec: `SquaredDistance( const VECTOR2I& )` is defined in
the class header, which is not among the sources: the squared distance from
`aP` to the nearest point of the segment. -/
def SquaredDistancePt (s : SEG) (aP : VECTOR2I) : Int :=
  ((s.NearestPointPt aP).sub aP).SquaredEuclideanNorm

/-- The local `d = f.Cross( e )` of `SEG::Intersect` (seg.cpp 95-99). -/
def Intersect_d (s : SEG) (aSeg : SEG) : Int := (aSeg.B.sub aSeg.A).Cross (s.B.sub s.A)

/-- The local `p = f.Cross( ac )` of `SEG::Intersect` (seg.cpp 96-100). -/
def Intersect_p (s : SEG) (aSeg : SEG) : Int := (aSeg.B.sub aSeg.A).Cross (aSeg.A.sub s.A)

/-- The local `q = e.Cross( ac )` of `SEG::Intersect` (seg.cpp 95-101). -/
def Intersect_q (s : SEG) (aSeg : SEG) : Int := (s.B.sub s.A).Cross (aSeg.A.sub s.A)

/-- Method `SEG::Intersect` (seg.cpp 93-119). The header gives both flags the
default `false`. -/
def Intersect (s : SEG) (aSeg : SEG) (aIgnoreEndpoints aLines : Bool) : Option VECTOR2I :=
  let f : VECTOR2I := aSeg.B.sub aSeg.A
  let d : Int := s.Intersect_d aSeg
  let p : Int := s.Intersect_p aSeg
  let q : Int := s.Intersect_q aSeg
  if d = 0 then none
  else if !aLines && decide (d > 0) &&
      (decide (q < 0) || decide (q > d) || decide (p < 0) || decide (p > d)) then none
  else if !aLines && decide (d < 0) &&
      (decide (q < d) || decide (p < d) || decide (p > 0) || decide (q > 0)) then none
  else if !aLines && aIgnoreEndpoints && (decide (q = 0) || decide (q = d)) &&
      (decide (p = 0) || decide (p = d)) then none
  else some ⟨aSeg.A.x + rescale q f.x d, aSeg.A.y + rescale q f.y d⟩

/-- Method `SEG::ccw` (seg.cpp 122-125). -/
def ccw (aA aB aC : VECTOR2I) : Bool :=
  decide ((aC.y - aA.y) * (aB.x - aA.x) > (aB.y - aA.y) * (aC.x - aA.x))

/-- Method `SEG::SquaredDistance( const SEG& )` (seg.cpp 37-57). -/
def SquaredDistance (s : SEG) (aSeg : SEG) : Int :=
  if (s.Intersect aSeg false false).isSome then 0
  else
    let pts : List VECTOR2I :=
      [(aSeg.NearestPointPt s.A).sub s.A, (aSeg.NearestPointPt s.B).sub s.B,
       (s.NearestPointPt aSeg.A).sub aSeg.A, (s.NearestPointPt aSeg.B).sub aSeg.B]
    pts.foldl (fun m v => min m v.SquaredEuclideanNorm) VECTOR2I.ECOORD_MAX

/-- Method `SEG::Contains` (seg.cpp 160-163). -/
def Contains (s : SEG) (aP : VECTOR2I) : Bool :=
  decide (s.SquaredDistancePt aP < 1)

/-- The model of `NearestPoint( const VECTOR2I& )` with the function `rescale` as a
parameter. -/
def NearestPointPtWith (R : Int → Int → Int → Int) (s : SEG) (aP : VECTOR2I) : VECTOR2I :=
  let d : VECTOR2I := s.B.sub s.A
  let l_squared : Int := d.Dot d
  if l_squared = 0 then s.A
  else
    let t : Int := d.Dot (aP.sub s.A)
    if t < 0 then s.A
    else if t > l_squared then s.B
    else ⟨s.A.x + R t d.x l_squared, s.A.y + R t d.y l_squared⟩

/-- Method `SEG::Intersect` (seg.cpp 93-119) with the function `rescale` as a
parameter. -/
def IntersectWith (R : Int → Int → Int → Int) (s : SEG) (aSeg : SEG)
    (aIgnoreEndpoints aLines : Bool) : Option VECTOR2I :=
  let f : VECTOR2I := aSeg.B.sub aSeg.A
  let d : Int := s.Intersect_d aSeg
  let p : Int := s.Intersect_p aSeg
  let q : Int := s.Intersect_q aSeg
  if d = 0 then none
  else if !aLines && decide (d > 0) &&
      (decide (q < 0) || decide (q > d) || decide (p < 0) || decide (p > d)) then none
  else if !aLines && decide (d < 0) &&
      (decide (q < d) || decide (p < d) || decide (p > 0) || decide (q > 0)) then none
  else if !aLines && aIgnoreEndpoints && (decide (q = 0) || decide (q = d)) &&
      (decide (p = 0) || decide (p = d)) then none
  else some ⟨aSeg.A.x + R q f.x d, aSeg.A.y + R q f.y d⟩

/-- Method `SEG::NearestPoint( const SEG& )` (seg.cpp 60-90). The four
candidates `pts_origin` are the nearest points of `aSeg` to `A` and to `B`, then
the nearest points of this segment to `aSeg.A` and to `aSeg.B`; the candidate
with the first smallest distance in `pts_dist` is returned as it is. -/
def NearestPoint (s : SEG) (aSeg : SEG) : VECTOR2I :=
  match s.Intersect aSeg false false with
  | some p => p
  | none =>
    let pts_origin : List VECTOR2I :=
      [aSeg.NearestPointPt s.A, aSeg.NearestPointPt s.B,
       s.NearestPointPt aSeg.A, s.NearestPointPt aSeg.B]
    let pts_dist : List Int :=
      [((pts_origin.getD 0 s.A).sub s.A).SquaredEuclideanNorm,
       ((pts_origin.getD 1 s.A).sub s.B).SquaredEuclideanNorm,
       ((pts_origin.getD 2 s.A).sub aSeg.A).SquaredEuclideanNorm,
       ((pts_origin.getD 3 s.A).sub aSeg.B).SquaredEuclideanNorm]
    let min_i : Nat :=
      (List.range 4).foldl
        (fun m i => if pts_dist.getD i 0 < pts_dist.getD m 0 then i else m) 0
    pts_origin.getD min_i s.A

/-- Two's complement wrap-around of a value to the 32-bit `int` range. -/
def wrap32 (z : Int) : Int := (z + 2 ^ 31) % 2 ^ 32 - 2 ^ 31

/-- Two's complement wrap-around of a value to the 64-bit `ecoord` range. -/
def wrap64 (z : Int) : Int := (z + 2 ^ 63) % 2 ^ 64 - 2 ^ 63

/-- The difference `a - b` of two `VECTOR2I` as the machine computes it: each
coordinate difference is an `int`. -/
def sub32 (a b : VECTOR2I) : VECTOR2I := ⟨wrap32 (a.x - b.x), wrap32 (a.y - b.y)⟩

/-- The cross product as the machine computes it: both products and their
difference are 64-bit values. -/
def Cross64 (a b : VECTOR2I) : Int := wrap64 (wrap64 (a.x * b.y) - wrap64 (a.y * b.x))

/-- The local `d` of `SEG::Intersect` as the machine computes it from the `int`
vectors `e( B - A )` and `f( aSeg.B - aSeg.A )` (seg.cpp 95-99). -/
def Intersect_d_machine (s : SEG) (aSeg : SEG) : Int :=
  Cross64 (sub32 aSeg.B aSeg.A) (sub32 s.B s.A)

/-- The local `p` of `SEG::Intersect` as the machine computes it. -/
def Intersect_p_machine (s : SEG) (aSeg : SEG) : Int :=
  Cross64 (sub32 aSeg.B aSeg.A) (sub32 aSeg.A s.A)

/-- The local `q` of `SEG::Intersect` as the machine computes it. -/
def Intersect_q_machine (s : SEG) (aSeg : SEG) : Int :=
  Cross64 (sub32 s.B s.A) (sub32 aSeg.A s.A)

/-- The left side `(ecoord) ( aC.y - aA.y ) * ( aB.x - aA.x )` of the comparison
in `SEG::ccw` as the machine computes it: two `int` differences, multiplied as
64-bit values. -/
def ccw_lhs_machine (aA aB aC : VECTOR2I) : Int :=
  wrap64 (wrap32 (aC.y - aA.y) * wrap32 (aB.x - aA.x))

/-- The right side `(ecoord) ( aB.y - aA.y ) * ( aC.x - aA.x )` of the
comparison in `SEG::ccw` as the machine computes it. -/
def ccw_rhs_machine (aA aB aC : VECTOR2I) : Int :=
  wrap64 (wrap32 (aB.y - aA.y) * wrap32 (aC.x - aA.x))

/-- A coordinate pair whose components are 32-bit signed integers. -/
def IsInt32 (v : VECTOR2I) : Prop :=
  (-2 ^ 31 ≤ v.x ∧ v.x < 2 ^ 31) ∧ (-2 ^ 31 ≤ v.y ∧ v.y < 2 ^ 31)

end SEG

/-! ## CADSTAR vertex chains (`cadstar_pcb_archive_loader.cpp`)

The loader converts an ordered list of CADSTAR vertices into drawing primitives
and then into a closed point chain. The classes `DRAWSEGMENT`, `EDGE_MODULE`,
`SHAPE_LINE_CHAIN` and the angle helpers of `trigo.h` are declared in files that
are not among the sources; what the loader uses of them is modelled below. A
`double` is an exact rational. -/

/-- The enumeration `VERTEX_TYPE` of the CADSTAR archive: the kinds of vertex. -/
inductive VERTEX_TYPE where
  | POINT
  | CLOCKWISE_ARC
  | CLOCKWISE_SEMICIRCLE
  | ANTICLOCKWISE_ARC
  | ANTICLOCKWISE_SEMICIRCLE
  deriving DecidableEq, Repr

/-- Modelled from the spec: the CADSTAR `VERTEX` record (declared in a header
that is not among the sources) carries its kind (member `Type`), a centre, used
by the two arc kinds, and an end point; CADSTAR points are `wxPoint` values. -/
structure VERTEX where
  Type_ : VERTEX_TYPE
  Center : wxPoint
  End : wxPoint
  deriving DecidableEq, Repr

/-- Modelled from the spec: the enumeration `STROKE_T` of primitive shapes
(declared in a header that is not among the sources). -/
inductive STROKE_T where
  | S_SEGMENT
  | S_RECT
  | S_ARC
  | S_CIRCLE
  | S_POLYGON
  | S_CURVE
  deriving DecidableEq, Repr

/-- Modelled from the spec: the class `DRAWSEGMENT` and its subclass
`EDGE_MODULE` are declared in headers that are not among the sources. A
primitive has a shape, a first point `m_Start` (start of a segment, centre of an
arc), a second point `m_End` (end of a segment, start point of an arc) and a
sweep angle in tenths of a degree; `isEdgeModule` tells that the object is an
`EDGE_MODULE` (class name `MGRAPHIC`), which also has the footprint-relative
points `m_Start0` and `m_End0`. -/
structure DRAWSEGMENT where
  isEdgeModule : Bool
  m_Shape : STROKE_T
  m_Start : wxPoint
  m_End : wxPoint
  m_Angle : ℚ
  m_Start0 : wxPoint
  m_End0 : wxPoint
  deriving DecidableEq

/-- Modelled from the spec: helper `NormalizeAnglePos` of `trigo.h`, which adds
or subtracts full turns of `3600` until the angle is in `[0, 3600)`. -/
def NormalizeAnglePos (Angle : ℚ) : ℚ := Angle - 3600 * (⌊Angle / 3600⌋ : Int)

/-- Modelled from the spec: helper `NormalizeAngleNeg` of `trigo.h`, which adds
or subtracts full turns of `3600` until the angle is in `(-3600, 0]`. -/
def NormalizeAngleNeg (Angle : ℚ) : ℚ := Angle - 3600 * (⌈Angle / 3600⌉ : Int)

/-- Modelled from the spec: helper `NormalizeAngle360Max` of `trigo.h`, which
adds or subtracts full turns of `3600` until the angle is in `[-3600, 3600]`. -/
def NormalizeAngle360Max (Angle : ℚ) : ℚ :=
  if Angle < -3600 then Angle - 3600 * ((⌊Angle / 3600⌋ : Int) + 1)
  else if Angle > 3600 then Angle - 3600 * ((⌈Angle / 3600⌉ : Int) - 1)
  else Angle

namespace DRAWSEGMENT

/-- Modelled from the spec: constructor of a primitive of the given class and
shape, with default points and angle. -/
def mk0 (isEdgeModule : Bool) (aShape : STROKE_T) : DRAWSEGMENT :=
  ⟨isEdgeModule, aShape, ⟨0, 0⟩, ⟨0, 0⟩, 0, ⟨0, 0⟩, ⟨0, 0⟩⟩

/-- Modelled from the spec: setter `SetStart`. -/
def SetStart (ds : DRAWSEGMENT) (aStart : wxPoint) : DRAWSEGMENT := { ds with m_Start := aStart }

/-- Modelled from the spec: setter `SetEnd`. -/
def SetEnd (ds : DRAWSEGMENT) (aEnd : wxPoint) : DRAWSEGMENT := { ds with m_End := aEnd }

/-- Modelled from the spec: setter `SetArcStart`; the start point of an arc is
stored in `m_End`. -/
def SetArcStart (ds : DRAWSEGMENT) (aArcStartPoint : wxPoint) : DRAWSEGMENT :=
  { ds with m_End := aArcStartPoint }

/-- Modelled from the spec: setter `SetCenter`; the centre of an arc is stored
in `m_Start`. -/
def SetCenter (ds : DRAWSEGMENT) (aCenterPoint : wxPoint) : DRAWSEGMENT :=
  { ds with m_Start := aCenterPoint }

/-- Modelled from the spec: setter `SetAngle`, which keeps the angle within one
full turn either way. -/
def SetAngle (ds : DRAWSEGMENT) (aAngle : ℚ) : DRAWSEGMENT :=
  { ds with m_Angle := NormalizeAngle360Max aAngle }

/-- Modelled from the spec: getter `GetCenter` of an arc. -/
def GetCenter (ds : DRAWSEGMENT) : wxPoint := ds.m_Start

/-- Modelled from the spec: getter `GetArcStart` of an arc. -/
def GetArcStart (ds : DRAWSEGMENT) : wxPoint := ds.m_End

end DRAWSEGMENT

/-- Modelled from the spec: the class `SHAPE_LINE_CHAIN` is declared in a header
that is not among the sources. A chain is its list of points and its closed
flag. -/
structure SHAPE_LINE_CHAIN where
  m_points : List VECTOR2I
  m_closed : Bool
  deriving DecidableEq, Repr

namespace SHAPE_LINE_CHAIN

/-- Modelled from the spec: the default constructor gives an empty open chain. -/
def empty : SHAPE_LINE_CHAIN := ⟨[], false⟩

/-- Modelled from the spec: method `Append( int, int )` adds a point at the end
of the chain unless it repeats the last point. -/
def Append (c : SHAPE_LINE_CHAIN) (aX aY : Int) : SHAPE_LINE_CHAIN :=
  if c.m_points.getLast? = some ⟨aX, aY⟩ then c
  else { c with m_points := c.m_points ++ [⟨aX, aY⟩] }

/-- Modelled from the spec: method `SetClosed`. -/
def SetClosed (c : SHAPE_LINE_CHAIN) (aClosed : Bool) : SHAPE_LINE_CHAIN :=
  { c with m_closed := aClosed }

/-- Modelled from the spec: method `PointCount`. -/
def PointCount (c : SHAPE_LINE_CHAIN) : Nat := c.m_points.length

end SHAPE_LINE_CHAIN

/-- Modelled from the spec: the functions that the loader calls and that are
defined in files that are not among the sources are parameters of the model:
the arc tangent `ArcTangente( dy, dx )` in tenths of a degree, the methods
`Flip`, `Scale`, `Rotate`, `Move` and `SetLocalCoord` of a primitive, and the
method `SHAPE_LINE_CHAIN::Append( SHAPE_ARC )`, which receives the two points
and the angle in degrees from which the arc is constructed. -/
structure LOADER_DEPS where
  ArcTangente : Int → Int → ℚ
  Flip : DRAWSEGMENT → wxPoint → Bool → DRAWSEGMENT
  Scale : DRAWSEGMENT → ℚ → DRAWSEGMENT
  Rotate : DRAWSEGMENT → wxPoint → ℚ → DRAWSEGMENT
  Move : DRAWSEGMENT → wxPoint → DRAWSEGMENT
  SetLocalCoord : DRAWSEGMENT → DRAWSEGMENT
  AppendArc : SHAPE_LINE_CHAIN → wxPoint → wxPoint → ℚ → SHAPE_LINE_CHAIN

/-- The arguments that the conversion functions pass along unchanged: whether
the container is a footprint (`isModule( aContainer )`) and the requested
transformation. The group identifier only registers the primitive in a group
of the loader and is left out. -/
structure TRANSFORM_ARGS where
  aContainerIsModule : Bool
  aMoveVector : wxPoint
  aRotationAngle : ℚ
  aScalingFactor : ℚ
  aTransformCentre : wxPoint
  aMirrorInvert : Bool

/-- The members of `CADSTAR_PCB_ARCHIVE_LOADER` read by the point conversion. -/
structure CADSTAR_PCB_ARCHIVE_LOADER where
  mDesignCenter : wxPoint
  KiCadUnitMultiplier : Int

namespace CADSTAR_PCB_ARCHIVE_LOADER

/-- Method `getKiCadPoint` (cadstar_pcb_archive_loader.cpp 2326-2334). -/
def getKiCadPoint (L : CADSTAR_PCB_ARCHIVE_LOADER) (aCadstarPoint : wxPoint) : wxPoint :=
  ⟨(aCadstarPoint.x - L.mDesignCenter.x) * L.KiCadUnitMultiplier,
   -(aCadstarPoint.y - L.mDesignCenter.y) * L.KiCadUnitMultiplier⟩

/-- Method `getPolarAngle` (cadstar_pcb_archive_loader.cpp 2337-2341). -/
def getPolarAngle (D : LOADER_DEPS) (aPoint : wxPoint) : ℚ :=
  NormalizeAnglePos (D.ArcTangente aPoint.y aPoint.x)

/-- The primitive that `getDrawSegmentFromVertex` builds before it applies the
transformation (cadstar_pcb_archive_loader.cpp 1679-1744). The point
operations `( startPoint + endPoint ) / 2` and `startPoint - centerPoint` act
on each coordinate, the division truncating. -/
def newDrawSegment (L : CADSTAR_PCB_ARCHIVE_LOADER) (D : LOADER_DEPS)
    (aCadstarStartPoint : wxPoint) (aCadstarVertex : VERTEX) (aContainerIsModule : Bool) :
    DRAWSEGMENT :=
  let startPoint : wxPoint := L.getKiCadPoint aCadstarStartPoint
  let endPoint : wxPoint := L.getKiCadPoint aCadstarVertex.End
  let centerPoint : wxPoint :=
    if aCadstarVertex.Type_ = VERTEX_TYPE.ANTICLOCKWISE_SEMICIRCLE
        ∨ aCadstarVertex.Type_ = VERTEX_TYPE.CLOCKWISE_SEMICIRCLE then
      ⟨Int.tdiv (startPoint.x + endPoint.x) 2, Int.tdiv (startPoint.y + endPoint.y) 2⟩
    else L.getKiCadPoint aCadstarVertex.Center
  let arc (cw : Bool) : DRAWSEGMENT :=
    let ds : DRAWSEGMENT :=
      ((DRAWSEGMENT.mk0 aContainerIsModule STROKE_T.S_ARC).SetArcStart startPoint).SetCenter
        centerPoint
    let arcStartAngle : ℚ :=
      getPolarAngle D ⟨startPoint.x - centerPoint.x, startPoint.y - centerPoint.y⟩
    let arcEndAngle : ℚ :=
      getPolarAngle D ⟨endPoint.x - centerPoint.x, endPoint.y - centerPoint.y⟩
    let arcAngle : ℚ := arcEndAngle - arcStartAngle
    if cw then ds.SetAngle (NormalizeAnglePos arcAngle)
    else ds.SetAngle (NormalizeAngleNeg arcAngle)
  match aCadstarVertex.Type_ with
  | VERTEX_TYPE.POINT =>
    ((DRAWSEGMENT.mk0 aContainerIsModule STROKE_T.S_SEGMENT).SetStart startPoint).SetEnd endPoint
  | VERTEX_TYPE.CLOCKWISE_SEMICIRCLE => arc true
  | VERTEX_TYPE.CLOCKWISE_ARC => arc true
  | VERTEX_TYPE.ANTICLOCKWISE_SEMICIRCLE => arc false
  | VERTEX_TYPE.ANTICLOCKWISE_ARC => arc false

/-- The block `//Apply transforms` of `getDrawSegmentFromVertex`
(cadstar_pcb_archive_loader.cpp 1746-1764). -/
def applyTransforms (D : LOADER_DEPS) (T : TRANSFORM_ARGS) (ds : DRAWSEGMENT) : DRAWSEGMENT :=
  let ds1 : DRAWSEGMENT := if T.aMirrorInvert then D.Flip ds T.aTransformCentre true else ds
  let ds2 : DRAWSEGMENT :=
    if T.aScalingFactor ≠ 1 then
      D.Move (D.Scale (D.Move ds1 ⟨-T.aTransformCentre.x, -T.aTransformCentre.y⟩)
        T.aScalingFactor) T.aTransformCentre
    else ds1
  let ds3 : DRAWSEGMENT :=
    if T.aRotationAngle ≠ 0 then D.Rotate ds2 T.aTransformCentre T.aRotationAngle else ds2
  let ds4 : DRAWSEGMENT := if T.aMoveVector ≠ ⟨0, 0⟩ then D.Move ds3 T.aMoveVector else ds3
  if T.aContainerIsModule then D.SetLocalCoord ds4 else ds4

/-- Method `getDrawSegmentFromVertex` (cadstar_pcb_archive_loader.cpp
1673-1770). -/
def getDrawSegmentFromVertex (L : CADSTAR_PCB_ARCHIVE_LOADER) (D : LOADER_DEPS)
    (aCadstarStartPoint : wxPoint) (aCadstarVertex : VERTEX) (T : TRANSFORM_ARGS) : DRAWSEGMENT :=
  applyTransforms D T
    (L.newDrawSegment D aCadstarStartPoint aCadstarVertex T.aContainerIsModule)

/-- The loop of `getDrawSegmentsFromVertices`: `prev` is the vertex before the
remaining ones. -/
def drawSegmentsLoop (L : CADSTAR_PCB_ARCHIVE_LOADER) (D : LOADER_DEPS) (T : TRANSFORM_ARGS) :
    VERTEX → List VERTEX → List DRAWSEGMENT
  | _, [] => []
  | prev, cur :: rest =>
    L.getDrawSegmentFromVertex D prev.End cur T :: drawSegmentsLoop L D T cur rest

/-- Method `getDrawSegmentsFromVertices` (cadstar_pcb_archive_loader.cpp
1646-1670). -/
def getDrawSegmentsFromVertices (L : CADSTAR_PCB_ARCHIVE_LOADER) (D : LOADER_DEPS)
    (aCadstarVertices : List VERTEX) (T : TRANSFORM_ARGS) : List DRAWSEGMENT :=
  if aCadstarVertices.length < 2 then []
  else
    match aCadstarVertices with
    | [] => []
    | prev :: rest => L.drawSegmentsLoop D T prev rest

/-- One step of the loop of `getLineChainFromDrawsegments`: the points of one
primitive are appended to the chain. -/
def appendDrawsegment (D : LOADER_DEPS) (lineChain : SHAPE_LINE_CHAIN) (ds : DRAWSEGMENT) :
    SHAPE_LINE_CHAIN :=
  match ds.m_Shape with
  | STROKE_T.S_ARC =>
    if ds.isEdgeModule then D.AppendArc lineChain ds.m_Start0 ds.m_End0 (ds.m_Angle / 10)
    else D.AppendArc lineChain ds.GetCenter ds.GetArcStart (ds.m_Angle / 10)
  | STROKE_T.S_SEGMENT =>
    if ds.isEdgeModule then
      (lineChain.Append ds.m_Start0.x ds.m_Start0.y).Append ds.m_End0.x ds.m_End0.y
    else (lineChain.Append ds.m_Start.x ds.m_Start.y).Append ds.m_End.x ds.m_End.y
  | _ => lineChain

/-- Method `getLineChainFromDrawsegments` (cadstar_pcb_archive_loader.cpp
1859-1907). The check `wxASSERT( lineChain.PointCount() > 2 )` does not change
what is returned. -/
def getLineChainFromDrawsegments (D : LOADER_DEPS) (aDrawsegments : List DRAWSEGMENT) :
    SHAPE_LINE_CHAIN :=
  (aDrawsegments.foldl (appendDrawsegment D) SHAPE_LINE_CHAIN.empty).SetClosed true

end CADSTAR_PCB_ARCHIVE_LOADER

/-- The transformation arguments of a conversion on a board that requests no
mirroring, scaling, rotation or move. -/
def TRANSFORM_ARGS.identity : TRANSFORM_ARGS := ⟨false, ⟨0, 0⟩, 0, 1, ⟨0, 0⟩, false⟩

/-- Modelled from the spec: one polygon of a `SHAPE_POLY_SET` (declared in a
header that is not among the sources) is its outline followed by its holes. -/
structure POLYGON where
  outline : SHAPE_LINE_CHAIN
  holes : List SHAPE_LINE_CHAIN
  deriving DecidableEq, Repr

/-- Modelled from the spec: a `SHAPE_POLY_SET` is its list of polygons. -/
structure SHAPE_POLY_SET where
  m_polys : List POLYGON
  deriving DecidableEq, Repr

namespace SHAPE_POLY_SET

/-- Modelled from the spec: the default constructor gives a set without
polygons. -/
def empty : SHAPE_POLY_SET := ⟨[]⟩

/-- Modelled from the spec: method `OutlineCount`. -/
def OutlineCount (s : SHAPE_POLY_SET) : Nat := s.m_polys.length

/-- Modelled from the spec: method `Outline( aIndex )`. -/
def Outline (s : SHAPE_POLY_SET) (aIndex : Nat) : SHAPE_LINE_CHAIN :=
  ((s.m_polys.get? aIndex).map POLYGON.outline).getD SHAPE_LINE_CHAIN.empty

/-- Modelled from the spec: method `HoleCount( aOutline )`. -/
def HoleCount (s : SHAPE_POLY_SET) (aOutline : Nat) : Nat :=
  ((s.m_polys.get? aOutline).map (fun p => p.holes.length)).getD 0

/-- Modelled from the spec: method `CHole( aOutline, aHole )`. -/
def CHole (s : SHAPE_POLY_SET) (aOutline aHole : Nat) : SHAPE_LINE_CHAIN :=
  ((s.m_polys.get? aOutline).bind (fun p => p.holes.get? aHole)).getD SHAPE_LINE_CHAIN.empty

/-- Modelled from the spec: method `AddOutline` adds a polygon without holes at
the end of the set. -/
def AddOutline (s : SHAPE_POLY_SET) (aOutline : SHAPE_LINE_CHAIN) : SHAPE_POLY_SET :=
  ⟨s.m_polys ++ [⟨aOutline, []⟩]⟩

/-- Modelled from the spec: method `AddHole` with its default outline index
adds a hole at the end of the holes of the last polygon. -/
def AddHole (s : SHAPE_POLY_SET) (aHole : SHAPE_LINE_CHAIN) : SHAPE_POLY_SET :=
  match s.m_polys.getLast? with
  | none => s
  | some p => ⟨s.m_polys.dropLast ++ [⟨p.outline, p.holes ++ [aHole]⟩]⟩

end SHAPE_POLY_SET

/-- Modelled from the spec: the class `ZONE_CONTAINER` is declared in a header
that is not among the sources. A zone has its outline set, its local flags, its
border hatch lines, and further settings, of which the priority stands for all
that the copy constructor copies. -/
structure ZONE_CONTAINER where
  m_Poly : SHAPE_POLY_SET
  m_localFlgs : Int
  m_HatchLines : List SEG
  m_priority : Nat

/-- Modelled from the spec: the kinds of change staged in a `BOARD_COMMIT`. -/
inductive CHANGE_TYPE where
  | CHT_ADD
  | CHT_REMOVE
  deriving DecidableEq, Repr

/-- Modelled from the spec: a `BOARD_COMMIT` is the list of staged changes, in
the order in which they were staged. -/
structure BOARD_COMMIT where
  m_changes : List (CHANGE_TYPE × ZONE_CONTAINER)

namespace BOARD_COMMIT

/-- Modelled from the spec: method `Add` stages the addition of an item. -/
def Add (c : BOARD_COMMIT) (aItem : ZONE_CONTAINER) : BOARD_COMMIT :=
  ⟨c.m_changes ++ [(CHANGE_TYPE.CHT_ADD, aItem)]⟩

/-- Modelled from the spec: method `Remove` stages the removal of an item. -/
def Remove (c : BOARD_COMMIT) (aItem : ZONE_CONTAINER) : BOARD_COMMIT :=
  ⟨c.m_changes ++ [(CHANGE_TYPE.CHT_REMOVE, aItem)]⟩

end BOARD_COMMIT

/-- Modelled from the spec: the functions that `performZoneCutout` calls and
that are defined in files that are not among the sources are parameters of the
model: the polygon subtraction `BooleanSubtract`, the hatch lines that
`HatchBorder` computes for a zone, and the flag returned by
`ZONE_FILLER::Fill`. -/
structure ZONE_DEPS where
  BooleanSubtract : SHAPE_POLY_SET → SHAPE_POLY_SET → SHAPE_POLY_SET
  HatchBorder : ZONE_CONTAINER → List SEG
  Fill : List ZONE_CONTAINER → Bool

/-- What `performZoneCutout` leaves behind when it returns: the local vector
`newZones`, the changes staged in the commit, whether the commit was pushed
(`true`) or reverted (`false`), and the zone stored in `m_params.m_sourceZone`,
if one was stored. -/
structure ZONE_CUTOUT_RESULT where
  newZones : List ZONE_CONTAINER
  commit : BOARD_COMMIT
  pushed : Bool
  m_sourceZone : Option ZONE_CONTAINER

/-- The failure of `performZoneCutout`: the commit was pushed and then element
`0` of the empty vector `newZones` was read. -/
structure ZONE_CUTOUT_INVALID_READ where
  commit : BOARD_COMMIT

namespace ZONE_CREATE_HELPER

/-- The body of the outline loop of `performZoneCutout`
(zone_create_helper.cpp 152-166): the new zone made for one outline index. -/
def newZoneOfOutline (D : ZONE_DEPS) (aZone : ZONE_CONTAINER) (originalOutline : SHAPE_POLY_SET)
    (outline : Nat) : ZONE_CONTAINER :=
  let newZoneOutline0 : SHAPE_POLY_SET :=
    SHAPE_POLY_SET.empty.AddOutline (originalOutline.Outline outline)
  let newZoneOutline : SHAPE_POLY_SET :=
    (List.range (originalOutline.HoleCount outline)).foldl
      (fun ps hole => ps.AddHole (originalOutline.CHole outline hole)) newZoneOutline0
  let newZone0 : ZONE_CONTAINER := aZone
  let newZone1 : ZONE_CONTAINER := { newZone0 with m_Poly := newZoneOutline }
  let newZone2 : ZONE_CONTAINER := { newZone1 with m_localFlgs := 1 }
  { newZone2 with m_HatchLines := D.HatchBorder newZone2 }

/-- Method `performZoneCutout` (zone_create_helper.cpp 134-183). The result is
an error when the function reads `newZones[0]` while `newZones` is empty. -/
def performZoneCutout (D : ZONE_DEPS) (aZone aCutout : ZONE_CONTAINER) :
    Except ZONE_CUTOUT_INVALID_READ ZONE_CUTOUT_RESULT :=
  let originalOutline : SHAPE_POLY_SET := D.BooleanSubtract aZone.m_Poly aCutout.m_Poly
  let loop : List ZONE_CONTAINER × BOARD_COMMIT :=
    (List.range originalOutline.OutlineCount).foldl
      (fun st outline =>
        let newZone := newZoneOfOutline D aZone originalOutline outline
        (st.1 ++ [newZone], st.2.Add newZone))
      ([], ⟨[]⟩)
  let newZones : List ZONE_CONTAINER := loop.1
  let commit : BOARD_COMMIT := loop.2.Remove aZone
  if !D.Fill newZones then
    Except.ok ⟨newZones, commit, false, none⟩
  else
    match newZones.get? 0 with
    | none => Except.error ⟨commit⟩
    | some z => Except.ok ⟨newZones, commit, true, some z⟩

end ZONE_CREATE_HELPER

/-- The zone that the 1-to-N split is expected to make for one polygon of the
subtraction result: a copy of the original zone whose outline set is that
polygon alone (its outline with its holes in their order), with local flags
`1` and its border hatched. -/
def ZONE_CREATE_HELPER.zoneOfPolygon (D : ZONE_DEPS) (aZone : ZONE_CONTAINER) (p : POLYGON) :
    ZONE_CONTAINER :=
  { aZone with
    m_Poly := ⟨[p]⟩
    m_localFlgs := 1
    m_HatchLines := D.HatchBorder { aZone with m_Poly := ⟨[p]⟩, m_localFlgs := 1 } }

/-! ## Theorems -/

namespace EDA_RECT

/-- One axis of the containment transfer: an interval `[b, b+v]` (in either
orientation) whose two ends lie in `[a, a+w]` (in either orientation) lies in
it entirely. -/
lemma axis_trans (a w b v p : Int)
    (h1 : min a (a + w) ≤ b ∧ b ≤ max a (a + w))
    (h2 : min a (a + w) ≤ b + v ∧ b + v ≤ max a (a + w))
    (h3 : min b (b + v) ≤ p ∧ p ≤ max b (b + v)) :
    min a (a + w) ≤ p ∧ p ≤ max a (a + w) := by
  omega

/-- One axis of `Common`: for non-negative extents with overlapping intervals,
membership in the common interval is membership in both. -/
lemma axis_common (a w b v p : Int) (hw : 0 ≤ w) (hv : 0 ≤ v)
    (h : max a b ≤ min (a + w) (b + v)) :
    (min (max (min a (a + w)) (min b (b + v)))
          (max (min a (a + w)) (min b (b + v)) +
            (min (max a (a + w)) (max b (b + v)) - max (min a (a + w)) (min b (b + v)))) ≤ p ∧
      p ≤ max (max (min a (a + w)) (min b (b + v)))
          (max (min a (a + w)) (min b (b + v)) +
            (min (max a (a + w)) (max b (b + v)) - max (min a (a + w)) (min b (b + v))))) ↔
    (min a (a + w) ≤ p ∧ p ≤ max a (a + w)) ∧ (min b (b + v) ≤ p ∧ p ≤ max b (b + v)) := by
  rw [max_eq_right (show a ≤ a + w by omega), max_eq_right (show b ≤ b + v by omega),
    min_eq_left (show a ≤ a + w by omega), min_eq_left (show b ≤ b + v by omega)]
  rw [add_sub_cancel, min_eq_left h, max_eq_right h]
  constructor <;> intro h <;> omega

/-- Point membership in terms of the four corner coordinates, whatever the
signs of the extents. -/
lemma Contains_iff (r : EDA_RECT) (p : wxPoint) :
    r.Contains p = true ↔
      (min r.m_Pos.x (r.m_Pos.x + r.m_Size.x) ≤ p.x ∧
        p.x ≤ max r.m_Pos.x (r.m_Pos.x + r.m_Size.x)) ∧
      (min r.m_Pos.y (r.m_Pos.y + r.m_Size.y) ≤ p.y ∧
        p.y ≤ max r.m_Pos.y (r.m_Pos.y + r.m_Size.y)) := by
  simp only [Contains, Bool.and_eq_true, decide_eq_true_eq, ge_iff_le]
  by_cases hx : r.m_Size.x < 0 <;> by_cases hy : r.m_Size.y < 0 <;>
    simp only [hx, hy, if_true, if_false] <;>
    constructor <;> intro h <;> omega

/-- Closed form of `Normalize`, axis by axis. -/
lemma Normalize_eq (r : EDA_RECT) :
    r.Normalize =
      ⟨⟨if r.m_Size.x < 0 then r.m_Pos.x + r.m_Size.x else r.m_Pos.x,
        if r.m_Size.y < 0 then r.m_Pos.y + r.m_Size.y else r.m_Pos.y⟩,
       ⟨if r.m_Size.x < 0 then -r.m_Size.x else r.m_Size.x,
        if r.m_Size.y < 0 then -r.m_Size.y else r.m_Size.y⟩, r.m_init⟩ := by
  obtain ⟨⟨px, py⟩, ⟨sx, sy⟩, i⟩ := r
  by_cases hx : sx < 0 <;> by_cases hy : sy < 0 <;>
    simp only [Normalize, hx, hy, if_true, if_false, sub_neg_eq_add, neg_neg]

/-- A rectangle whose extents are non-negative is left alone by `Normalize`. -/
lemma Normalize_of_nonneg (r : EDA_RECT) (hx : 0 ≤ r.m_Size.x) (hy : 0 ≤ r.m_Size.y) :
    r.Normalize = r := by
  obtain ⟨⟨px, py⟩, ⟨sx, sy⟩, i⟩ := r
  dsimp only at hx hy
  simp only [Normalize, not_lt.mpr hx, not_lt.mpr hy, if_false]

/-- The extents of a normalized rectangle are non-negative. -/
lemma Normalize_size_nonneg (r : EDA_RECT) :
    0 ≤ r.Normalize.m_Size.x ∧ 0 ≤ r.Normalize.m_Size.y := by
  rw [Normalize_eq]
  constructor <;> dsimp only <;> split_ifs <;> omega

/-- C1. `Normalize` is idempotent, and a normalized rectangle has non-negative
width and height, for rectangles with position and size of any sign. -/
theorem Normalize_idempotent_nonneg (r : EDA_RECT) :
    r.Normalize.Normalize = r.Normalize ∧
      0 ≤ r.Normalize.m_Size.x ∧ 0 ≤ r.Normalize.m_Size.y :=
  ⟨Normalize_of_nonneg _ (Normalize_size_nonneg r).1 (Normalize_size_nonneg r).2,
    Normalize_size_nonneg r⟩

/-- C2. `Normalize` preserves the covered region: a point is contained in a
rectangle (size of any sign) exactly when it is contained in the normalized
rectangle. -/
theorem Normalize_preserves_Contains (r : EDA_RECT) (p : wxPoint) :
    r.Normalize.Contains p = r.Contains p := by
  obtain ⟨⟨px, py⟩, ⟨sx, sy⟩, i⟩ := r
  rw [Bool.eq_iff_iff, Contains_iff, Contains_iff]
  by_cases hx : sx < 0 <;> by_cases hy : sy < 0 <;>
    simp only [Normalize, hx, hy, if_true, if_false] <;>
    constructor <;> intro h <;> omega

/-- The function `Intersects` on an initialised receiver, with every normalized copy
replaced by its closed form. -/
lemma Intersects_iff (a b : EDA_RECT) (ha : a.m_init = true) :
    a.Intersects b = true ↔
      (max a.Normalize.m_Pos.x b.Normalize.m_Pos.x ≤
          min (a.Normalize.m_Pos.x + a.Normalize.m_Size.x)
            (b.Normalize.m_Pos.x + b.Normalize.m_Size.x)) ∧
      (max a.Normalize.m_Pos.y b.m_Pos.y ≤
          min (a.Normalize.m_Pos.y + a.Normalize.m_Size.y)
            (b.Normalize.m_Pos.y + b.Normalize.m_Size.y)) := by
  simp [Intersects, ha]

/-- An uninitialised receiver never intersects anything. -/
lemma Intersects_of_not_init (a b : EDA_RECT) (ha : a.m_init = false) :
    a.Intersects b = false := by
  simp [Intersects, ha]

/-- C3 (counterexample). `Intersects` is not symmetric when exactly one of the
two rectangles is initialised: the initialised point rectangle at the origin
intersects the uninitialised one, but not the other way round. -/
theorem Intersects_not_symmetric_uninit :
    Intersects ⟨⟨0, 0⟩, ⟨0, 0⟩, true⟩ ⟨⟨0, 0⟩, ⟨0, 0⟩, false⟩ = true ∧
      Intersects ⟨⟨0, 0⟩, ⟨0, 0⟩, false⟩ ⟨⟨0, 0⟩, ⟨0, 0⟩, true⟩ = false := by
  decide

/-- C3 (amended). For rectangles that are both initialised or both
uninitialised and whose heights are non-negative (widths of any sign),
`a.Intersects(b)` equals `b.Intersects(a)`. -/
theorem Intersects_symmetric (a b : EDA_RECT) (hinit : a.m_init = b.m_init)
    (ha : 0 ≤ a.m_Size.y) (hb : 0 ≤ b.m_Size.y) :
    a.Intersects b = b.Intersects a := by
  cases hi : a.m_init
  · rw [Intersects_of_not_init a b hi, Intersects_of_not_init b a (hinit ▸ hi)]
  · rw [Bool.eq_iff_iff, Intersects_iff a b hi, Intersects_iff b a (hinit ▸ hi)]
    obtain ⟨⟨ax, ay⟩, ⟨aw, ah⟩, ai⟩ := a
    obtain ⟨⟨bx, by_⟩, ⟨bw, bh⟩, bi⟩ := b
    dsimp only at ha hb
    simp only [Normalize_eq, not_lt.mpr ha, not_lt.mpr hb, if_false]
    constructor <;> intro h <;> omega

/-- C3 (witness). Two initialised rectangles, one of them with a negative
width. -/
theorem Intersects_symmetric_witness :
    Intersects ⟨⟨0, 0⟩, ⟨-10, 10⟩, true⟩ ⟨⟨-5, 5⟩, ⟨10, 10⟩, true⟩ =
      Intersects ⟨⟨-5, 5⟩, ⟨10, 10⟩, true⟩ ⟨⟨0, 0⟩, ⟨-10, 10⟩, true⟩ :=
  Intersects_symmetric ⟨⟨0, 0⟩, ⟨-10, 10⟩, true⟩ ⟨⟨-5, 5⟩, ⟨10, 10⟩, true⟩ rfl
    (by decide) (by decide)

/-- C4 (failing input). The receiver is the initialised rectangle at `(0,0)`
of size `(10,10)`; the argument has position `(0,20)` and size `(10,-20)`, so
its normalized copy is at `(0,0)` with size `(10,20)`. The closed intervals of
the normalized copies overlap on both axes, yet `Intersects` is false because
`top` is computed from the un-normalized `y` position `20` of the argument. -/
theorem Intersects_negative_height_misses :
    Intersects ⟨⟨0, 0⟩, ⟨10, 10⟩, true⟩ ⟨⟨0, 20⟩, ⟨10, -20⟩, true⟩ = false ∧
      max (Normalize ⟨⟨0, 0⟩, ⟨10, 10⟩, true⟩).GetLeft
          (Normalize ⟨⟨0, 20⟩, ⟨10, -20⟩, true⟩).GetLeft ≤
        min (Normalize ⟨⟨0, 0⟩, ⟨10, 10⟩, true⟩).GetRight
          (Normalize ⟨⟨0, 20⟩, ⟨10, -20⟩, true⟩).GetRight ∧
      max (Normalize ⟨⟨0, 0⟩, ⟨10, 10⟩, true⟩).GetTop
          (Normalize ⟨⟨0, 20⟩, ⟨10, -20⟩, true⟩).GetTop ≤
        min (Normalize ⟨⟨0, 0⟩, ⟨10, 10⟩, true⟩).GetBottom
          (Normalize ⟨⟨0, 20⟩, ⟨10, -20⟩, true⟩).GetBottom := by
  decide

/-- C5. For initialised rectangles `A`, `B` with non-negative sizes: when they
intersect, `A.Common(B)` is the initialised rectangle from (max of the lefts,
max of the tops) to (min of the rights, min of the bottoms), and a point is
contained in it exactly when it is contained in both `A` and `B`; when they do
not intersect, `A.Common(B)` is uninitialised. -/
theorem Common_spec (A B : EDA_RECT) (hA : A.m_init = true) (hB : B.m_init = true)
    (hAx : 0 ≤ A.m_Size.x) (hAy : 0 ≤ A.m_Size.y)
    (hBx : 0 ≤ B.m_Size.x) (hBy : 0 ≤ B.m_Size.y) :
    (A.Intersects B = true →
        (A.Common B).m_init = true ∧
        (A.Common B).GetOrigin = ⟨max A.GetLeft B.GetLeft, max A.GetTop B.GetTop⟩ ∧
        (A.Common B).GetEnd = ⟨min A.GetRight B.GetRight, min A.GetBottom B.GetBottom⟩ ∧
        ∀ p : wxPoint, (A.Common B).Contains p = (A.Contains p && B.Contains p)) ∧
      (A.Intersects B = false → (A.Common B).m_init = false) := by
  obtain ⟨⟨ax, ay⟩, ⟨aw, ah⟩, ai⟩ := A
  obtain ⟨⟨bx, by_⟩, ⟨bw, bh⟩, bi⟩ := B
  dsimp only at hA hAx hAy hBx hBy
  subst hA
  constructor
  · intro hI
    have hI2 := (Intersects_iff _ _ rfl).mp hI
    simp only [Normalize_eq, not_lt.mpr hAx, not_lt.mpr hAy, not_lt.mpr hBx,
      not_lt.mpr hBy, if_false] at hI2
    obtain ⟨hIx, hIy⟩ := hI2
    have e1 : min ax (ax + aw) = ax := min_eq_left (by omega)
    have e2 : min ay (ay + ah) = ay := min_eq_left (by omega)
    have e3 : min bx (bx + bw) = bx := min_eq_left (by omega)
    have e4 : min by_ (by_ + bh) = by_ := min_eq_left (by omega)
    have e5 : max ax (ax + aw) = ax + aw := max_eq_right (by omega)
    have e6 : max ay (ay + ah) = ay + ah := max_eq_right (by omega)
    have e7 : max bx (bx + bw) = bx + bw := max_eq_right (by omega)
    have e8 : max by_ (by_ + bh) = by_ + bh := max_eq_right (by omega)
    refine ⟨?_, ?_, ?_, ?_⟩
    · simp [Common, hI, SetEnd, SetOrigin]
    · simp only [Common, hI, if_true, SetEnd, SetOrigin, GetOrigin, GetEnd, GetLeft,
        GetTop, e1, e2, e3, e4]
    · simp only [Common, hI, if_true, SetEnd, SetOrigin, GetOrigin, GetEnd, GetRight,
        GetBottom, e5, e6, e7, e8, add_sub_cancel]
    · intro p
      rw [Bool.eq_iff_iff, Bool.and_eq_true, Contains_iff, Contains_iff, Contains_iff]
      simp only [Common, hI, if_true, SetEnd, SetOrigin, GetOrigin, GetEnd]
      rw [axis_common ax aw bx bw p.x hAx hBx hIx, axis_common ay ah by_ bh p.y hAy hBy hIy]
      tauto
  · intro hI
    simp [Common, hI, mkDefault]

/-- C5 (witness). `A` = position `(0,0)` size `(10,10)` and `B` = position
`(5,5)` size `(10,10)` intersect, and `A.Common(B)` is position `(5,5)` size
`(5,5)`. -/
theorem Common_spec_witness :
    Intersects ⟨⟨0, 0⟩, ⟨10, 10⟩, true⟩ ⟨⟨5, 5⟩, ⟨10, 10⟩, true⟩ = true ∧
      Common ⟨⟨0, 0⟩, ⟨10, 10⟩, true⟩ ⟨⟨5, 5⟩, ⟨10, 10⟩, true⟩ = ⟨⟨5, 5⟩, ⟨5, 5⟩, true⟩ ∧
      ∀ p : wxPoint,
        (Common ⟨⟨0, 0⟩, ⟨10, 10⟩, true⟩ ⟨⟨5, 5⟩, ⟨10, 10⟩, true⟩).Contains p =
          (Contains ⟨⟨0, 0⟩, ⟨10, 10⟩, true⟩ p && Contains ⟨⟨5, 5⟩, ⟨10, 10⟩, true⟩ p) :=
  ⟨by decide, by decide,
    ((Common_spec ⟨⟨0, 0⟩, ⟨10, 10⟩, true⟩ ⟨⟨5, 5⟩, ⟨10, 10⟩, true⟩ rfl rfl
      (by decide) (by decide) (by decide) (by decide)).1 (by decide)).2.2.2⟩

/-- C6. If `A.Contains(B)` (the origin and the end corner of `B` are both
contained in `A`) and `B` contains the point `p`, then `A` contains `p`; sizes
of any sign. -/
theorem Contains_trans (A B : EDA_RECT) (p : wxPoint)
    (hAB : A.ContainsRect B = true) (hBp : B.Contains p = true) :
    A.Contains p = true := by
  simp only [ContainsRect, Bool.and_eq_true, Contains_iff, GetOrigin, GetEnd] at hAB
  rw [Contains_iff] at hBp ⊢
  obtain ⟨⟨hox, hoy⟩, ⟨hex, hey⟩⟩ := hAB
  exact ⟨axis_trans _ _ _ _ _ hox hex hBp.1, axis_trans _ _ _ _ _ hoy hey hBp.2⟩

/-- C6 (witness). `B` has negative extents and lies inside `A`. -/
theorem Contains_trans_witness :
    ContainsRect ⟨⟨0, 0⟩, ⟨10, 10⟩, true⟩ ⟨⟨7, 7⟩, ⟨-5, -5⟩, true⟩ = true ∧
      Contains ⟨⟨7, 7⟩, ⟨-5, -5⟩, true⟩ ⟨3, 4⟩ = true ∧
      Contains ⟨⟨0, 0⟩, ⟨10, 10⟩, true⟩ ⟨3, 4⟩ = true :=
  ⟨by decide, by decide,
    Contains_trans ⟨⟨0, 0⟩, ⟨10, 10⟩, true⟩ ⟨⟨7, 7⟩, ⟨-5, -5⟩, true⟩ ⟨3, 4⟩
      (by decide) (by decide)⟩

/-- The `x` half of `Inflate` leaves the `y` fields alone. -/
lemma InflateX_y (r : EDA_RECT) (dx : Int) :
    (r.InflateX dx).m_Size.y = r.m_Size.y ∧ (r.InflateX dx).m_Pos.y = r.m_Pos.y := by
  unfold InflateX
  split_ifs <;> exact ⟨rfl, rfl⟩

/-- The `y` half of `Inflate` leaves the `x` fields alone. -/
lemma InflateY_x (r : EDA_RECT) (dy : Int) :
    (r.InflateY dy).m_Size.x = r.m_Size.x ∧ (r.InflateY dy).m_Pos.x = r.m_Pos.x := by
  unfold InflateY
  split_ifs <;> exact ⟨rfl, rfl⟩

/-- The `x` half of `Inflate` on a non-negative width. -/
lemma InflateX_of_nonneg (r : EDA_RECT) (dx : Int) (hw : 0 ≤ r.m_Size.x) :
    (r.m_Size.x < -2 * dx →
        (r.InflateX dx).m_Size.x = 0 ∧
        (r.InflateX dx).m_Pos.x = r.m_Pos.x + Int.tdiv r.m_Size.x 2) ∧
      0 ≤ (r.InflateX dx).m_Size.x := by
  unfold InflateX
  rw [if_pos (ge_iff_le.mpr hw)]
  by_cases c : r.m_Size.x < -2 * dx
  · rw [if_pos c]
    exact ⟨fun _ => ⟨rfl, rfl⟩, le_refl _⟩
  · rw [if_neg c]
    refine ⟨fun h => absurd h c, ?_⟩
    dsimp only
    omega

/-- The `y` half of `Inflate` on a non-negative height. -/
lemma InflateY_of_nonneg (r : EDA_RECT) (dy : Int) (hh : 0 ≤ r.m_Size.y) :
    (r.m_Size.y < -2 * dy →
        (r.InflateY dy).m_Size.y = 0 ∧
        (r.InflateY dy).m_Pos.y = r.m_Pos.y + Int.tdiv r.m_Size.y 2) ∧
      0 ≤ (r.InflateY dy).m_Size.y := by
  unfold InflateY
  rw [if_pos (ge_iff_le.mpr hh)]
  by_cases c : r.m_Size.y < -2 * dy
  · rw [if_pos c]
    exact ⟨fun _ => ⟨rfl, rfl⟩, le_refl _⟩
  · rw [if_neg c]
    refine ⟨fun h => absurd h c, ?_⟩
    dsimp only
    omega

/-- C7. For a rectangle with non-negative width `w` and height `h`: when
`w < -2*dx`, `Inflate(dx, dy)` sets the width to `0` and moves the `x` position
to the original centre `x + w/2`; when `h < -2*dy` it sets the height to `0` and
moves the `y` position to `y + h/2`; the resulting size is never negative. -/
theorem Inflate_clamp (r : EDA_RECT) (dx dy : Int)
    (hw : 0 ≤ r.m_Size.x) (hh : 0 ≤ r.m_Size.y) :
    (r.m_Size.x < -2 * dx →
        (r.Inflate dx dy).m_Size.x = 0 ∧
        (r.Inflate dx dy).m_Pos.x = r.m_Pos.x + Int.tdiv r.m_Size.x 2) ∧
      (r.m_Size.y < -2 * dy →
        (r.Inflate dx dy).m_Size.y = 0 ∧
        (r.Inflate dx dy).m_Pos.y = r.m_Pos.y + Int.tdiv r.m_Size.y 2) ∧
      0 ≤ (r.Inflate dx dy).m_Size.x ∧ 0 ≤ (r.Inflate dx dy).m_Size.y := by
  obtain ⟨hXx, hXn⟩ := InflateX_of_nonneg r dx hw
  obtain ⟨hYy, hYn⟩ :=
    InflateY_of_nonneg (r.InflateX dx) dy (by rw [(InflateX_y r dx).1]; exact hh)
  rw [(InflateX_y r dx).1, (InflateX_y r dx).2] at hYy
  unfold Inflate
  rw [(InflateY_x (r.InflateX dx) dy).1, (InflateY_x (r.InflateX dx) dy).2]
  exact ⟨hXx, hYy, hXn, hYn⟩

/-- C7 (witness). Size `(4,4)` at `(0,0)` with `Inflate(-10,-10)` gives size
`(0,0)` positioned at the original centre `(2,2)`. -/
theorem Inflate_clamp_witness :
    Inflate ⟨⟨0, 0⟩, ⟨4, 4⟩, true⟩ (-10) (-10) = ⟨⟨2, 2⟩, ⟨0, 0⟩, true⟩ ∧
      0 ≤ (Inflate ⟨⟨0, 0⟩, ⟨4, 4⟩, true⟩ (-10) (-10)).m_Size.x ∧
      0 ≤ (Inflate ⟨⟨0, 0⟩, ⟨4, 4⟩, true⟩ (-10) (-10)).m_Size.y :=
  ⟨by decide,
    (Inflate_clamp ⟨⟨0, 0⟩, ⟨4, 4⟩, true⟩ (-10) (-10) (by decide) (by decide)).2.2⟩

/-- C8 (failing input). On the rectangle at `(0,0)` with size `(-10,-10)`,
`Inflate(-6,-6)` turns the width `-10` into `+2` (the sign is inverted) while
the height is clamped to `0`; and `Inflate(6,6)` clamps the width to `0` although
it is asked to grow, while the height grows to `-22`. The two axes do not follow
the same rule. -/
theorem Inflate_negative_width_flips :
    Inflate ⟨⟨0, 0⟩, ⟨-10, -10⟩, true⟩ (-6) (-6) = ⟨⟨-6, 5⟩, ⟨2, 0⟩, true⟩ ∧
      Inflate ⟨⟨0, 0⟩, ⟨-10, -10⟩, true⟩ 6 6 = ⟨⟨5, 6⟩, ⟨0, -22⟩, true⟩ := by
  decide

/-- One axis of `ClosestPointTo`: the clamp of `p` into `[l, l + s]` lies in
the interval, is not farther from `p` than any point of it, and is `p` itself
when `p` is inside. -/
lemma axis_clamp (l s p : Int) (hs : 0 ≤ s) :
    (l ≤ max l (min p (l + s)) ∧ max l (min p (l + s)) ≤ l + s) ∧
      (∀ q : Int, l ≤ q → q ≤ l + s → (max l (min p (l + s)) - p) ^ 2 ≤ (q - p) ^ 2) ∧
      (l ≤ p → p ≤ l + s → max l (min p (l + s)) = p) := by
  refine ⟨by omega, ?_, by omega⟩
  intro q hq1 hq2
  rcases lt_or_le p l with h | h
  · have e : max l (min p (l + s)) = l := by omega
    rw [e]; nlinarith
  · rcases le_or_lt p (l + s) with h2 | h2
    · have e : max l (min p (l + s)) = p := by omega
      rw [e]; nlinarith [sq_nonneg (q - p)]
    · have e : max l (min p (l + s)) = l + s := by omega
      rw [e]; nlinarith

/-- Membership in a normalized rectangle, as two closed intervals. -/
lemma Contains_iff_Normalize (r : EDA_RECT) (p : wxPoint) :
    r.Contains p = true ↔
      (r.Normalize.m_Pos.x ≤ p.x ∧ p.x ≤ r.Normalize.m_Pos.x + r.Normalize.m_Size.x) ∧
      (r.Normalize.m_Pos.y ≤ p.y ∧ p.y ≤ r.Normalize.m_Pos.y + r.Normalize.m_Size.y) := by
  rw [Contains_iff, Normalize_eq]
  dsimp only
  split_ifs <;> constructor <;> intro h <;> omega

/-- C9. For every rectangle `r` (size of any sign) and point `p`:
`r.ClosestPointTo(p)` is contained in `r`, no point contained in `r` has a
smaller squared distance to `p`, and when `r` contains `p` the result is `p`. -/
theorem ClosestPointTo_spec (r : EDA_RECT) (p : wxPoint) :
    r.Contains (r.ClosestPointTo p) = true ∧
      (∀ q : wxPoint, r.Contains q = true → sqDist (r.ClosestPointTo p) p ≤ sqDist q p) ∧
      (r.Contains p = true → r.ClosestPointTo p = p) := by
  obtain ⟨hsx, hsy⟩ := Normalize_size_nonneg r
  obtain ⟨hx1, hx2, hx3⟩ := axis_clamp r.Normalize.m_Pos.x r.Normalize.m_Size.x p.x hsx
  obtain ⟨hy1, hy2, hy3⟩ := axis_clamp r.Normalize.m_Pos.y r.Normalize.m_Size.y p.y hsy
  refine ⟨?_, ?_, ?_⟩
  · rw [Contains_iff_Normalize]
    exact ⟨hx1, hy1⟩
  · intro q hq
    rw [Contains_iff_Normalize] at hq
    have h1 := hx2 q.x hq.1.1 hq.1.2
    have h2 := hy2 q.y hq.2.1 hq.2.2
    simp only [sqDist, ClosestPointTo, GetLeft, GetRight, GetTop, GetBottom]
    omega
  · intro hp
    rw [Contains_iff_Normalize] at hp
    have h1 := hx3 hp.1.1 hp.1.2
    have h2 := hy3 hp.2.1 hp.2.2
    simp only [ClosestPointTo, GetLeft, GetRight, GetTop, GetBottom, h1, h2]

/-- One axis of `FarthestPointTo`: over the interval `[l, l + s]`, the larger
of the distances from `p` to the two ends bounds the distance from `p` to every
point, and one of the ends attains it. -/
lemma axis_far (l s p : Int) (hs : 0 ≤ s) :
    (∀ q : Int, l ≤ q → q ≤ l + s → (q - p) ^ 2 ≤ (max (abs (p - l)) (abs (p - (l + s)))) ^ 2) ∧
      ∃ q : Int, (l ≤ q ∧ q ≤ l + s) ∧
        (q - p) ^ 2 = (max (abs (p - l)) (abs (p - (l + s)))) ^ 2 := by
  constructor
  · intro q h1 h2
    have h3 : abs (q - p) ≤ max (abs (p - l)) (abs (p - (l + s))) := by
      have a1 := le_abs_self (p - l)
      have a2 := neg_abs_le (p - (l + s))
      rw [abs_le]
      constructor <;> omega
    calc (q - p) ^ 2 = (abs (q - p)) ^ 2 := (sq_abs _).symm
      _ ≤ _ := pow_le_pow_left₀ (abs_nonneg _) h3 2
  · rcases le_total (abs (p - l)) (abs (p - (l + s))) with h | h
    · refine ⟨l + s, ⟨by omega, le_refl _⟩, ?_⟩
      rw [max_eq_right h, sq_abs]; ring
    · refine ⟨l, ⟨le_refl _, by omega⟩, ?_⟩
      rw [max_eq_left h, sq_abs]; ring

/-- The squared length of the pair returned by `FarthestPointTo` is the largest
squared distance from the given point to a point of the rectangle. -/
lemma FarthestPointTo_spec (r : EDA_RECT) (c : wxPoint) :
    (∀ q : wxPoint, r.Contains q = true →
        sqDist q c ≤ (r.FarthestPointTo c).x ^ 2 + (r.FarthestPointTo c).y ^ 2) ∧
      ∃ q : wxPoint, r.Contains q = true ∧
        sqDist q c = (r.FarthestPointTo c).x ^ 2 + (r.FarthestPointTo c).y ^ 2 := by
  obtain ⟨hsx, hsy⟩ := Normalize_size_nonneg r
  obtain ⟨hx1, qx, hqx, hx2⟩ := axis_far r.Normalize.m_Pos.x r.Normalize.m_Size.x c.x hsx
  obtain ⟨hy1, qy, hqy, hy2⟩ := axis_far r.Normalize.m_Pos.y r.Normalize.m_Size.y c.y hsy
  constructor
  · intro q hq
    rw [Contains_iff_Normalize] at hq
    have h1 := hx1 q.x hq.1.1 hq.1.2
    have h2 := hy1 q.y hq.2.1 hq.2.2
    simp only [sqDist, FarthestPointTo, GetLeft, GetRight, GetTop, GetBottom]
    exact add_le_add h1 h2
  · refine ⟨⟨qx, qy⟩, ?_, ?_⟩
    · rw [Contains_iff_Normalize]
      exact ⟨hqx, hqy⟩
    · simp only [sqDist, FarthestPointTo, GetLeft, GetRight, GetTop, GetBottom]
      rw [hx2, hy2]

end EDA_RECT

/-- An integer is its own rounding. -/
lemma roundHalfEven_intCast (z : Int) : roundHalfEven (z : ℚ) = z := by
  simp [roundHalfEven]

/-- A value `n * 2^z` with `|n| < 2^53` is a `double`: rounding leaves it
unchanged. -/
lemma roundDouble_dyadic (n z : Int) (h : |n| < 2 ^ 53) :
    roundDouble ((n : ℚ) * 2 ^ z) = (n : ℚ) * 2 ^ z := by
  unfold roundDouble
  by_cases hn : n = 0
  · simp [hn]
  have h2 : (0 : ℚ) < 2 ^ z := zpow_pos (by norm_num) z
  have hq : (n : ℚ) * 2 ^ z ≠ 0 := mul_ne_zero (by exact_mod_cast hn) h2.ne'
  rw [if_neg hq]
  have hpos : (0 : ℚ) < |(n : ℚ) * 2 ^ z| := abs_pos.mpr hq
  have hlt : |(n : ℚ) * 2 ^ z| < (2 : ℚ) ^ ((53 : Int) + z) := by
    rw [abs_mul, abs_of_pos h2, zpow_add₀ (by norm_num)]
    apply mul_lt_mul_of_pos_right _ h2
    exact_mod_cast h
  have hlog : Int.log 2 |(n : ℚ) * 2 ^ z| < 53 + z :=
    (Int.lt_zpow_iff_log_lt (b := 2) (by norm_num) hpos).mp (by simpa using hlt)
  obtain ⟨k, hk⟩ : ∃ k : Nat, z = (Int.log 2 |(n : ℚ) * 2 ^ z| - 52) + (k : Int) := by
    refine ⟨(z - (Int.log 2 |(n : ℚ) * 2 ^ z| - 52)).toNat, ?_⟩
    rw [Int.toNat_of_nonneg (by omega)]
    ring
  generalize Int.log 2 |(n : ℚ) * 2 ^ z| - 52 = e at hk
  subst hk
  have he : (0 : ℚ) < 2 ^ e := zpow_pos (by norm_num) e
  have e1 : (n : ℚ) * 2 ^ (e + (k : Int)) / 2 ^ e = ((n * 2 ^ k : Int) : ℚ) := by
    rw [zpow_add₀ (by norm_num), zpow_natCast]
    push_cast
    field_simp
    ring
  rw [e1, roundHalfEven_intCast, zpow_add₀ (by norm_num), zpow_natCast]
  push_cast
  ring

/-- An integer of magnitude below `2^53` is a `double`. -/
lemma roundDouble_intCast (n : Int) (h : |n| < 2 ^ 53) : roundDouble (n : ℚ) = n := by
  simpa using roundDouble_dyadic n 0 h

/-- Half of an integer of magnitude below `2^53` is a `double`. -/
lemma roundDouble_half (n : Int) (h : |n| < 2 ^ 53) : roundDouble ((n : ℚ) / 2) = (n : ℚ) / 2 := by
  have := roundDouble_dyadic n (-1) h
  simpa [div_eq_mul_inv] using this

/-- A quarter of an integer of magnitude below `2^53` is a `double`. -/
lemma roundDouble_quarter (n : Int) (h : |n| < 2 ^ 53) :
    roundDouble ((n : ℚ) / 4) = (n : ℚ) / 4 := by
  have := roundDouble_dyadic n (-2) h
  have e : (2 : ℚ) ^ (-2 : Int) = 1 / 4 := by norm_num [zpow_neg]
  rw [e] at this
  simpa [div_eq_mul_inv] using this

/-- The power `2^54` is a `double`. -/
lemma roundDouble_two_pow_54 : roundDouble 18014398509481984 = 18014398509481984 := by
  have := roundDouble_dyadic 1 54 (by norm_num)
  norm_num at this
  exact this

/-- The integer `2^54 + 1` is not a `double`: it is rounded to `2^54`. -/
lemma roundDouble_two_pow_54_add_one :
    roundDouble 18014398509481985 = 18014398509481984 := by
  have hl : Int.log 2 |(18014398509481985 : ℚ)| = 54 := by
    have hpos : (0 : ℚ) < |(18014398509481985 : ℚ)| := by norm_num
    apply le_antisymm
    · have := (Int.lt_zpow_iff_log_lt (b := 2) (x := 55) (by norm_num) hpos).mp (by norm_num)
      omega
    · exact (Int.zpow_le_iff_le_log (b := 2) (x := 54) (by norm_num) hpos).mp (by norm_num)
  unfold roundDouble
  rw [if_neg (by norm_num), hl]
  have hf : ⌊(18014398509481985 : ℚ) / 2 ^ ((54 : Int) - 52)⌋ = 4503599627370496 := by
    rw [Int.floor_eq_iff]
    norm_num
  unfold roundHalfEven
  rw [hf]
  norm_num

/-- The rounded sum of the rounded squares of two integers is their exact sum of
squares when that sum is below `2^53`. -/
lemma roundDouble_sq_add_sq (a b : Int) (h : a * a + b * b < 2 ^ 53) :
    roundDouble (roundDouble ((a : ℚ) * (a : ℚ)) + roundDouble ((b : ℚ) * (b : ℚ))) =
      ((a * a + b * b : Int) : ℚ) := by
  have ha : |a * a| < 2 ^ 53 := by
    rw [abs_of_nonneg (mul_self_nonneg a)]
    nlinarith [mul_self_nonneg b]
  have hb : |b * b| < 2 ^ 53 := by
    rw [abs_of_nonneg (mul_self_nonneg b)]
    nlinarith [mul_self_nonneg a]
  have hab : |a * a + b * b| < 2 ^ 53 := by
    rw [abs_of_nonneg (add_nonneg (mul_self_nonneg a) (mul_self_nonneg b))]
    exact h
  rw [← Int.cast_mul, ← Int.cast_mul, roundDouble_intCast _ ha, roundDouble_intCast _ hb,
    ← Int.cast_add, roundDouble_intCast _ hab]

namespace EDA_RECT

/-- The closest point returned by `ClosestPointTo` is a point of the rectangle. -/
lemma Contains_ClosestPointTo (r : EDA_RECT) (p : wxPoint) :
    r.Contains (r.ClosestPointTo p) = true := by
  obtain ⟨hsx, hsy⟩ := Normalize_size_nonneg r
  obtain ⟨hx1, -, -⟩ := axis_clamp r.Normalize.m_Pos.x r.Normalize.m_Size.x p.x hsx
  obtain ⟨hy1, -, -⟩ := axis_clamp r.Normalize.m_Pos.y r.Normalize.m_Size.y p.y hsy
  rw [Contains_iff_Normalize]
  exact ⟨hx1, hy1⟩

/-- The function `IntersectsCircle` on an initialised rectangle, in integers,
when the squared distance and the squared radius are below `2^53`. -/
lemma IntersectsCircle_iff (r : EDA_RECT) (c : wxPoint) (ρ : Int) (hinit : r.m_init = true)
    (hd : sqDist (r.ClosestPointTo c) c < 2 ^ 53) (hρ : ρ ^ 2 < 2 ^ 53) :
    r.IntersectsCircle c ρ = true ↔ sqDist (r.ClosestPointTo c) c ≤ ρ ^ 2 := by
  simp only [IntersectsCircle, hinit, Bool.not_true, Bool.false_eq_true, if_false,
    decide_eq_true_eq]
  simp only [sqDist] at hd ⊢
  have hd' : (c.x - (r.ClosestPointTo c).x) * (c.x - (r.ClosestPointTo c).x) +
      (c.y - (r.ClosestPointTo c).y) * (c.y - (r.ClosestPointTo c).y) < 2 ^ 53 := by
    linarith
  have hρ' : |ρ * ρ| < 2 ^ 53 := by
    rw [abs_of_nonneg (mul_self_nonneg ρ)]
    linarith
  rw [roundDouble_sq_add_sq _ _ hd', ← Int.cast_mul, roundDouble_intCast _ hρ', Int.cast_le]
  constructor <;> intro h <;> linarith

/-- The function `IntersectsCircleEdge` on an initialised rectangle, in integers,
when the squares that are formed are below `2^53`: the closest point is within
the truncated outer radius and four times the squared farthest distance exceeds
the square of `2 * aRadius - aWidth`. -/
lemma IntersectsCircleEdge_iff_int (r : EDA_RECT) (c : wxPoint) (R W : Int)
    (hinit : r.m_init = true) (hd : sqDist (r.ClosestPointTo c) c < 2 ^ 53)
    (ho : (R + Int.tdiv W 2) ^ 2 < 2 ^ 53)
    (hf : (r.FarthestPointTo c).x ^ 2 + (r.FarthestPointTo c).y ^ 2 < 2 ^ 53)
    (hW : |W| < 2 ^ 53) (hk : (2 * R - W) ^ 2 < 2 ^ 53) :
    r.IntersectsCircleEdge c R W = true ↔
      sqDist (r.ClosestPointTo c) c ≤ (R + Int.tdiv W 2) ^ 2 ∧
      (2 * R - W) ^ 2 < 4 * ((r.FarthestPointTo c).x ^ 2 + (r.FarthestPointTo c).y ^ 2) := by
  rw [← IntersectsCircle_iff r c _ hinit hd ho]
  unfold IntersectsCircleEdge
  rw [hinit]
  cases hc : r.IntersectsCircle c (R + Int.tdiv W 2)
  · simp
  · simp only [Bool.not_true, Bool.false_eq_true, if_false, decide_eq_true_eq, true_and,
      gt_iff_lt]
    have hf' : (r.FarthestPointTo c).x * (r.FarthestPointTo c).x +
        (r.FarthestPointTo c).y * (r.FarthestPointTo c).y < 2 ^ 53 := by linarith
    have hk1 : |2 * R - W| < 2 ^ 53 := by
      rw [abs_lt]
      constructor <;> nlinarith
    have hk2 : |(2 * R - W) * (2 * R - W)| < 2 ^ 53 := by
      rw [abs_of_nonneg (mul_self_nonneg _)]
      linarith
    have e0 : (R : ℚ) - (W : ℚ) / 2 = ((2 * R - W : Int) : ℚ) / 2 := by
      push_cast
      ring
    have e1 : ((2 * R - W : Int) : ℚ) / 2 * (((2 * R - W : Int) : ℚ) / 2) =
        (((2 * R - W) * (2 * R - W) : Int) : ℚ) / 4 := by
      push_cast
      ring
    rw [roundDouble_sq_add_sq _ _ hf', roundDouble_half W hW, e0, roundDouble_half _ hk1, e1,
      roundDouble_quarter _ hk2, div_lt_iff₀ (by norm_num : (0 : ℚ) < 4)]
    constructor
    · intro h
      have h' : (((2 * R - W) * (2 * R - W) : Int) : ℚ) <
          (((r.FarthestPointTo c).x * (r.FarthestPointTo c).x +
            (r.FarthestPointTo c).y * (r.FarthestPointTo c).y) * 4 : Int) := by
        push_cast at h ⊢
        exact h
      have := Int.cast_lt.mp h'
      linarith
    · intro h
      have h' : (2 * R - W) * (2 * R - W) <
          ((r.FarthestPointTo c).x * (r.FarthestPointTo c).x +
            (r.FarthestPointTo c).y * (r.FarthestPointTo c).y) * 4 := by linarith
      have := Int.cast_lt (R := ℚ) |>.mpr h'
      push_cast at this ⊢
      exact this

/-- C10 (counterexample). First, the rectangle is the single point `(1,1)` and
the circle has centre `(0,0)`, radius `1` and stroke width `1`: the closest
point is at distance `√2`, within `R + W/2 = 1.5`, and the largest distance `√2`
exceeds the inner radius `R - W/2 = 0.5`; yet `IntersectsCircleEdge` is false,
because the outer radius is computed as the `int` expression `1 + 1 / 2 = 1`.
Second, the rectangle is `[0, 2^27] x [0, 1]` and the circle has centre `(0,0)`,
radius `2^27` and stroke width `0`: the closest point is the centre and the
largest distance `√(2^54 + 1)` exceeds the radius; yet `IntersectsCircleEdge`
is false, because the sum `2^54 + 1` of the squares is rounded to the `double`
`2^54`, which is not greater than the squared radius `2^54`. -/
theorem IntersectsCircleEdge_misses :
    (IntersectsCircleEdge ⟨⟨1, 1⟩, ⟨0, 0⟩, true⟩ ⟨0, 0⟩ 1 1 = false ∧
      Real.sqrt ((sqDist (ClosestPointTo ⟨⟨1, 1⟩, ⟨0, 0⟩, true⟩ ⟨0, 0⟩) ⟨0, 0⟩ : Int) : ℝ)
        ≤ ((1 : Int) : ℝ) + ((1 : Int) : ℝ) / 2 ∧
      ((1 : Int) : ℝ) - ((1 : Int) : ℝ) / 2 <
        Real.sqrt ((((FarthestPointTo ⟨⟨1, 1⟩, ⟨0, 0⟩, true⟩ ⟨0, 0⟩).x ^ 2 +
          (FarthestPointTo ⟨⟨1, 1⟩, ⟨0, 0⟩, true⟩ ⟨0, 0⟩).y ^ 2 : Int)) : ℝ)) ∧
    (IntersectsCircleEdge ⟨⟨0, 0⟩, ⟨134217728, 1⟩, true⟩ ⟨0, 0⟩ 134217728 0 = false ∧
      Real.sqrt ((sqDist (ClosestPointTo ⟨⟨0, 0⟩, ⟨134217728, 1⟩, true⟩ ⟨0, 0⟩) ⟨0, 0⟩ : Int) : ℝ)
        ≤ ((134217728 : Int) : ℝ) + ((0 : Int) : ℝ) / 2 ∧
      ((134217728 : Int) : ℝ) - ((0 : Int) : ℝ) / 2 <
        Real.sqrt ((((FarthestPointTo ⟨⟨0, 0⟩, ⟨134217728, 1⟩, true⟩ ⟨0, 0⟩).x ^ 2 +
          (FarthestPointTo ⟨⟨0, 0⟩, ⟨134217728, 1⟩, true⟩ ⟨0, 0⟩).y ^ 2 : Int)) : ℝ)) := by
  have hc : sqDist (ClosestPointTo ⟨⟨1, 1⟩, ⟨0, 0⟩, true⟩ ⟨0, 0⟩) ⟨0, 0⟩ = 2 := by decide
  have hf : (FarthestPointTo ⟨⟨1, 1⟩, ⟨0, 0⟩, true⟩ ⟨0, 0⟩).x ^ 2 +
      (FarthestPointTo ⟨⟨1, 1⟩, ⟨0, 0⟩, true⟩ ⟨0, 0⟩).y ^ 2 = 2 := by decide
  have hc2 : ClosestPointTo ⟨⟨0, 0⟩, ⟨134217728, 1⟩, true⟩ ⟨0, 0⟩ = ⟨0, 0⟩ := by decide
  have hf2 : FarthestPointTo ⟨⟨0, 0⟩, ⟨134217728, 1⟩, true⟩ ⟨0, 0⟩ = ⟨134217728, 1⟩ := by
    decide
  have h0 : roundDouble 0 = 0 := by simp [roundDouble]
  have h1 : roundDouble 1 = 1 := by simpa using roundDouble_intCast 1 (by norm_num)
  have hR : roundDouble 134217728 = 134217728 := by
    simpa using roundDouble_intCast 134217728 (by norm_num)
  refine ⟨⟨?_, ?_, ?_⟩, ?_, ?_, ?_⟩
  · rw [Bool.eq_false_iff]
    intro h
    have h2 := ((IntersectsCircleEdge_iff_int _ _ _ _ rfl (by rw [hc]; norm_num)
      (by decide) (by rw [hf]; norm_num) (by decide) (by decide)).mp h).1
    rw [hc] at h2
    revert h2
    decide
  · rw [hc, Real.sqrt_le_iff]
    norm_num
  · rw [hf, Real.lt_sqrt (by norm_num)]
    norm_num
  · have hin : IntersectsCircle ⟨⟨0, 0⟩, ⟨134217728, 1⟩, true⟩ ⟨0, 0⟩
        (134217728 + Int.tdiv 0 2) = true := by
      simp only [IntersectsCircle, hc2]
      norm_num [h0, roundDouble_two_pow_54]
    simp only [IntersectsCircleEdge, hin, hf2]
    norm_num [h0, h1, hR, roundDouble_two_pow_54, roundDouble_two_pow_54_add_one]
  · rw [hc2, Real.sqrt_le_iff]
    norm_num [sqDist]
  · rw [hf2, Real.lt_sqrt (by norm_num)]
    norm_num

/-- C10 (amended). For an initialised rectangle `r`, centre `c`, radius
`R ≥ 0` and stroke width `W ≥ 0` with `W ≤ 2 * R` (the inner radius is not
negative), of magnitudes for which the squares formed in `double` are exact (the
largest squared distance from `c` to a point of `r` and `(2 R + W)^2` are below
`2^53`): `r.IntersectsCircleEdge(c, R, W)` is true exactly when the point of
`r` closest to `c` lies within distance `R + W / 2` of `c`, the half width being
the truncated integer quotient, and the largest distance from `c` to a point of
`r` is strictly greater than the inner radius `R - W/2` (exact half). The
squared length of the pair returned by `FarthestPointTo` is that largest squared
distance: it bounds every point of `r` and a point of `r` attains it. -/
theorem IntersectsCircleEdge_spec (r : EDA_RECT) (c : wxPoint) (R W : Int)
    (hinit : r.m_init = true) (hR : 0 ≤ R) (hW : 0 ≤ W) (hWR : W ≤ 2 * R)
    (hfar : (r.FarthestPointTo c).x ^ 2 + (r.FarthestPointTo c).y ^ 2 < 2 ^ 53)
    (hrad : (2 * R + W) ^ 2 < 2 ^ 53) :
    (r.IntersectsCircleEdge c R W = true ↔
        Real.sqrt ((sqDist (r.ClosestPointTo c) c : Int) : ℝ)
          ≤ ((R + Int.tdiv W 2 : Int) : ℝ) ∧
        (R : ℝ) - (W : ℝ) / 2 <
          Real.sqrt ((((r.FarthestPointTo c).x ^ 2 + (r.FarthestPointTo c).y ^ 2 : Int)) : ℝ)) ∧
      (∀ q : wxPoint, r.Contains q = true →
        sqDist q c ≤ (r.FarthestPointTo c).x ^ 2 + (r.FarthestPointTo c).y ^ 2) ∧
      (∃ q : wxPoint, r.Contains q = true ∧
        sqDist q c = (r.FarthestPointTo c).x ^ 2 + (r.FarthestPointTo c).y ^ 2) := by
  refine ⟨?_, (FarthestPointTo_spec r c).1, (FarthestPointTo_spec r c).2⟩
  have hhalf : 0 ≤ Int.tdiv W 2 ∧ 2 * Int.tdiv W 2 ≤ W := by
    rw [Int.tdiv_eq_ediv hW (by decide)]
    omega
  have hout : (0 : ℝ) ≤ ((R + Int.tdiv W 2 : Int) : ℝ) := by
    exact_mod_cast add_nonneg hR hhalf.1
  have hin : (0 : ℝ) ≤ (R : ℝ) - (W : ℝ) / 2 := by
    have : (W : ℝ) ≤ 2 * (R : ℝ) := by exact_mod_cast hWR
    linarith
  have hd : sqDist (r.ClosestPointTo c) c < 2 ^ 53 :=
    lt_of_le_of_lt ((FarthestPointTo_spec r c).1 _ (Contains_ClosestPointTo r c)) hfar
  have ho : (R + Int.tdiv W 2) ^ 2 < 2 ^ 53 := by nlinarith [hhalf.1, hhalf.2]
  have hW' : |W| < 2 ^ 53 := by
    rw [abs_of_nonneg hW]
    nlinarith
  have hk : (2 * R - W) ^ 2 < 2 ^ 53 := by nlinarith
  rw [IntersectsCircleEdge_iff_int r c R W hinit hd ho hfar hW' hk, Real.sqrt_le_left hout,
    Real.lt_sqrt hin]
  have e : ((R : ℝ) - (W : ℝ) / 2) ^ 2 = (((2 * R - W) ^ 2 : Int) : ℝ) / 4 := by
    push_cast; ring
  rw [e, div_lt_iff₀ (by norm_num : (0 : ℝ) < 4)]
  constructor
  · rintro ⟨h1, h2⟩
    refine ⟨by exact_mod_cast h1, ?_⟩
    have h3 : (((2 * R - W) ^ 2 : Int) : ℝ) <
        ((4 * ((r.FarthestPointTo c).x ^ 2 + (r.FarthestPointTo c).y ^ 2) : Int) : ℝ) :=
      Int.cast_lt.mpr h2
    push_cast at h3 ⊢
    linarith
  · rintro ⟨h1, h2⟩
    refine ⟨by exact_mod_cast h1, ?_⟩
    have h3 : (((2 * R - W) ^ 2 : Int) : ℝ) <
        ((4 * ((r.FarthestPointTo c).x ^ 2 + (r.FarthestPointTo c).y ^ 2) : Int) : ℝ) := by
      push_cast at h2 ⊢
      linarith
    exact Int.cast_lt.mp h3

/-- C10 (witness). The square `[0,10] x [0,10]` against the circle of centre
`(20,5)`, radius `10` and stroke width `2`. -/
theorem IntersectsCircleEdge_spec_witness :
    ((0 : Int) ≤ 10 ∧ (0 : Int) ≤ 2 ∧ (2 : Int) ≤ 2 * 10 ∧
        (FarthestPointTo ⟨⟨0, 0⟩, ⟨10, 10⟩, true⟩ ⟨20, 5⟩).x ^ 2 +
          (FarthestPointTo ⟨⟨0, 0⟩, ⟨10, 10⟩, true⟩ ⟨20, 5⟩).y ^ 2 < 2 ^ 53 ∧
        ((2 : Int) * 10 + 2) ^ 2 < 2 ^ 53) ∧
      (IntersectsCircleEdge ⟨⟨0, 0⟩, ⟨10, 10⟩, true⟩ ⟨20, 5⟩ 10 2 = true ↔
        Real.sqrt ((sqDist (ClosestPointTo ⟨⟨0, 0⟩, ⟨10, 10⟩, true⟩ ⟨20, 5⟩) ⟨20, 5⟩ : Int) : ℝ)
          ≤ ((10 + Int.tdiv 2 2 : Int) : ℝ) ∧
        ((10 : Int) : ℝ) - ((2 : Int) : ℝ) / 2 <
          Real.sqrt ((((FarthestPointTo ⟨⟨0, 0⟩, ⟨10, 10⟩, true⟩ ⟨20, 5⟩).x ^ 2 +
            (FarthestPointTo ⟨⟨0, 0⟩, ⟨10, 10⟩, true⟩ ⟨20, 5⟩).y ^ 2 : Int)) : ℝ)) :=
  ⟨by decide,
    (IntersectsCircleEdge_spec ⟨⟨0, 0⟩, ⟨10, 10⟩, true⟩ ⟨20, 5⟩ 10 2 rfl
      (by decide) (by decide) (by decide) (by decide) (by decide)).1⟩

/-- Outside the range `W ≤ 2 * R` of the amended C10 statement: for the point
rectangle at the centre of a circle of radius `1` drawn with stroke width `4`,
the closest point is within the outer radius `3`, but the inner radius `-1` is
compared through its square, and the result is false. -/
lemma IntersectsCircleEdge_wide_stroke :
    IntersectsCircleEdge ⟨⟨0, 0⟩, ⟨0, 0⟩, true⟩ ⟨0, 0⟩ 1 4 = false ∧
      IntersectsCircle ⟨⟨0, 0⟩, ⟨0, 0⟩, true⟩ ⟨0, 0⟩ (1 + Int.tdiv 4 2) = true := by
  constructor
  · rw [Bool.eq_false_iff]
    intro h
    have h2 := ((IntersectsCircleEdge_iff_int _ _ _ _ rfl (by decide) (by decide) (by decide)
      (by decide) (by decide)).mp h).2
    revert h2
    decide
  · rw [IntersectsCircle_iff _ _ _ rfl (by decide) (by decide)]
    decide

/-- One axis of `Merge`: the hull `[min l l2, max (l+s) (l2+s2)]` of two
intervals with non-negative lengths contains both, and every interval (given by
its two ends `u`, `v` in either order) that contains the four ends contains the
hull. -/
lemma axis_hull (l s l2 s2 q : Int) (hs : 0 ≤ s) (hs2 : 0 ≤ s2) :
    0 ≤ max (l + s) (l2 + s2) - min l l2 ∧
      (l ≤ q ∧ q ≤ l + s → min l l2 ≤ q ∧ q ≤ min l l2 + (max (l + s) (l2 + s2) - min l l2)) ∧
      (l2 ≤ q ∧ q ≤ l2 + s2 →
        min l l2 ≤ q ∧ q ≤ min l l2 + (max (l + s) (l2 + s2) - min l l2)) := by
  omega

/-- One axis of the minimality of `Merge`: an interval containing the ends of
both intervals contains every point of their hull. -/
lemma axis_hull_min (l s l2 s2 u v q : Int)
    (h1 : u ≤ l ∧ l + s ≤ v) (h2 : u ≤ l2 ∧ l2 + s2 ≤ v)
    (hq : min l l2 ≤ q ∧ q ≤ min l l2 + (max (l + s) (l2 + s2) - min l l2)) :
    u ≤ q ∧ q ≤ v := by
  omega

/-- One axis of `Merge` with a point: the hull of an interval and a point. -/
lemma axis_hull_pt (l s x q : Int) (hs : 0 ≤ s) :
    0 ≤ max (l + s) x - min l x ∧
      (l ≤ q ∧ q ≤ l + s → min l x ≤ q ∧ q ≤ min l x + (max (l + s) x - min l x)) ∧
      (min l x ≤ x ∧ x ≤ min l x + (max (l + s) x - min l x)) := by
  omega

/-- One axis of the minimality of `Merge` with a point. -/
lemma axis_hull_pt_min (l s x u v q : Int)
    (h1 : u ≤ l ∧ l + s ≤ v) (h2 : u ≤ x ∧ x ≤ v)
    (hq : min l x ≤ q ∧ q ≤ min l x + (max (l + s) x - min l x)) :
    u ≤ q ∧ q ≤ v := by
  omega

/-- Membership in a rectangle whose extents are non-negative. -/
lemma Contains_iff_of_nonneg (r : EDA_RECT) (p : wxPoint)
    (hx : 0 ≤ r.m_Size.x) (hy : 0 ≤ r.m_Size.y) :
    r.Contains p = true ↔
      (r.m_Pos.x ≤ p.x ∧ p.x ≤ r.m_Pos.x + r.m_Size.x) ∧
      (r.m_Pos.y ≤ p.y ∧ p.y ≤ r.m_Pos.y + r.m_Size.y) := by
  rw [Contains_iff_Normalize, Normalize_of_nonneg r hx hy]

/-- Closed form of `Merge` on an initialised receiver. -/
lemma Merge_eq (a b : EDA_RECT) (ha : a.m_init = true) :
    a.Merge b =
      ⟨⟨min a.Normalize.m_Pos.x b.Normalize.m_Pos.x, min a.Normalize.m_Pos.y b.Normalize.m_Pos.y⟩,
       ⟨max (a.Normalize.m_Pos.x + a.Normalize.m_Size.x)
            (b.Normalize.m_Pos.x + b.Normalize.m_Size.x) -
          min a.Normalize.m_Pos.x b.Normalize.m_Pos.x,
        max (a.Normalize.m_Pos.y + a.Normalize.m_Size.y)
            (b.Normalize.m_Pos.y + b.Normalize.m_Size.y) -
          min a.Normalize.m_Pos.y b.Normalize.m_Pos.y⟩, true⟩ := by
  simp [Merge, ha, SetEnd, GetEnd]

/-- Closed form of `Merge` with a point on an initialised receiver. -/
lemma MergePoint_eq (a : EDA_RECT) (p : wxPoint) (ha : a.m_init = true) :
    a.MergePoint p =
      ⟨⟨min a.Normalize.m_Pos.x p.x, min a.Normalize.m_Pos.y p.y⟩,
       ⟨max (a.Normalize.m_Pos.x + a.Normalize.m_Size.x) p.x - min a.Normalize.m_Pos.x p.x,
        max (a.Normalize.m_Pos.y + a.Normalize.m_Size.y) p.y - min a.Normalize.m_Pos.y p.y⟩,
       true⟩ := by
  simp [MergePoint, ha, SetEnd, GetEnd]

/-- The two corners of the normalized copy are points of the rectangle. -/
lemma Contains_corners (r : EDA_RECT) :
    r.Contains r.Normalize.m_Pos = true ∧ r.Contains r.Normalize.GetEnd = true := by
  obtain ⟨hx, hy⟩ := Normalize_size_nonneg r
  rw [Contains_iff_Normalize, Contains_iff_Normalize]
  simp only [GetEnd]
  omega

/-- A rectangle that contains the two corners of the normalized copy of `r`
encloses the interval of `r` on each axis. -/
lemma corners_in (c r : EDA_RECT) (h : ∀ p, r.Contains p = true → c.Contains p = true) :
    (c.Normalize.m_Pos.x ≤ r.Normalize.m_Pos.x ∧
        r.Normalize.m_Pos.x + r.Normalize.m_Size.x ≤ c.Normalize.m_Pos.x + c.Normalize.m_Size.x) ∧
      (c.Normalize.m_Pos.y ≤ r.Normalize.m_Pos.y ∧
        r.Normalize.m_Pos.y + r.Normalize.m_Size.y ≤ c.Normalize.m_Pos.y + c.Normalize.m_Size.y) := by
  have h1 := h _ (Contains_corners r).1
  have h2 := h _ (Contains_corners r).2
  rw [Contains_iff_Normalize] at h1 h2
  simp only [GetEnd] at h2
  omega

/-- C11. For an initialised rectangle `a` and a rectangle `b` (sizes of any
sign; the flag of `b` is not read, so in particular for an initialised `b`), the
rectangle `a.Merge(b)` has non-negative size, contains every point that `a` or
`b` contains, has as left/top the minima and as right/bottom the maxima of the
two normalized rectangles, and is contained in every rectangle that contains
the points of `a` and of `b`. Likewise `a.Merge(p)` for a point `p`: it has
non-negative size, contains `p` and the points of `a`, and lies in every
rectangle that contains `p` and the points of `a`. -/
theorem Merge_spec (a b : EDA_RECT) (p : wxPoint) (ha : a.m_init = true) :
    ((0 ≤ (a.Merge b).m_Size.x ∧ 0 ≤ (a.Merge b).m_Size.y) ∧
      (∀ q : wxPoint, a.Contains q = true ∨ b.Contains q = true →
        (a.Merge b).Contains q = true) ∧
      ((a.Merge b).GetLeft = min a.Normalize.GetLeft b.Normalize.GetLeft ∧
        (a.Merge b).GetTop = min a.Normalize.GetTop b.Normalize.GetTop ∧
        (a.Merge b).GetRight = max a.Normalize.GetRight b.Normalize.GetRight ∧
        (a.Merge b).GetBottom = max a.Normalize.GetBottom b.Normalize.GetBottom) ∧
      (∀ c : EDA_RECT, (∀ q, a.Contains q = true → c.Contains q = true) →
        (∀ q, b.Contains q = true → c.Contains q = true) →
        ∀ q, (a.Merge b).Contains q = true → c.Contains q = true)) ∧
    ((0 ≤ (a.MergePoint p).m_Size.x ∧ 0 ≤ (a.MergePoint p).m_Size.y) ∧
      (a.MergePoint p).Contains p = true ∧
      (∀ q : wxPoint, a.Contains q = true → (a.MergePoint p).Contains q = true) ∧
      ((a.MergePoint p).GetLeft = min a.Normalize.GetLeft p.x ∧
        (a.MergePoint p).GetTop = min a.Normalize.GetTop p.y ∧
        (a.MergePoint p).GetRight = max a.Normalize.GetRight p.x ∧
        (a.MergePoint p).GetBottom = max a.Normalize.GetBottom p.y) ∧
      (∀ c : EDA_RECT, (∀ q, a.Contains q = true → c.Contains q = true) →
        c.Contains p = true →
        ∀ q, (a.MergePoint p).Contains q = true → c.Contains q = true)) := by
  obtain ⟨hax, hay⟩ := Normalize_size_nonneg a
  obtain ⟨hbx, hby⟩ := Normalize_size_nonneg b
  have hX := fun q => axis_hull a.Normalize.m_Pos.x a.Normalize.m_Size.x
    b.Normalize.m_Pos.x b.Normalize.m_Size.x q hax hbx
  have hY := fun q => axis_hull a.Normalize.m_Pos.y a.Normalize.m_Size.y
    b.Normalize.m_Pos.y b.Normalize.m_Size.y q hay hby
  have pX := fun q => axis_hull_pt a.Normalize.m_Pos.x a.Normalize.m_Size.x p.x q hax
  have pY := fun q => axis_hull_pt a.Normalize.m_Pos.y a.Normalize.m_Size.y p.y q hay
  have hmx : 0 ≤ (a.Merge b).m_Size.x := by rw [Merge_eq a b ha]; exact (hX 0).1
  have hmy : 0 ≤ (a.Merge b).m_Size.y := by rw [Merge_eq a b ha]; exact (hY 0).1
  have hpx : 0 ≤ (a.MergePoint p).m_Size.x := by rw [MergePoint_eq a p ha]; exact (pX 0).1
  have hpy : 0 ≤ (a.MergePoint p).m_Size.y := by rw [MergePoint_eq a p ha]; exact (pY 0).1
  refine ⟨⟨⟨hmx, hmy⟩, ?_, ?_, ?_⟩, ⟨⟨hpx, hpy⟩, ?_, ?_, ?_, ?_⟩⟩
  · intro q hq
    rw [Contains_iff_of_nonneg _ _ hmx hmy, Merge_eq a b ha]
    rcases hq with hq | hq
    · rw [Contains_iff_Normalize] at hq
      exact ⟨(hX q.x).2.1 hq.1, (hY q.y).2.1 hq.2⟩
    · rw [Contains_iff_Normalize] at hq
      exact ⟨(hX q.x).2.2 hq.1, (hY q.y).2.2 hq.2⟩
  · rw [Merge_eq a b ha]
    simp only [GetLeft, GetTop, GetRight, GetBottom]
    exact ⟨trivial, trivial, by omega, by omega⟩
  · intro c hca hcb q hq
    rw [Contains_iff_of_nonneg _ _ hmx hmy, Merge_eq a b ha] at hq
    rw [Contains_iff_Normalize]
    obtain ⟨hax', hay'⟩ := corners_in c a hca
    obtain ⟨hbx', hby'⟩ := corners_in c b hcb
    exact ⟨axis_hull_min _ _ _ _ _ _ _ hax' hbx' hq.1, axis_hull_min _ _ _ _ _ _ _ hay' hby' hq.2⟩
  · rw [Contains_iff_of_nonneg _ _ hpx hpy, MergePoint_eq a p ha]
    exact ⟨(pX 0).2.2, (pY 0).2.2⟩
  · intro q hq
    rw [Contains_iff_of_nonneg _ _ hpx hpy, MergePoint_eq a p ha]
    rw [Contains_iff_Normalize] at hq
    exact ⟨(pX q.x).2.1 hq.1, (pY q.y).2.1 hq.2⟩
  · rw [MergePoint_eq a p ha]
    simp only [GetLeft, GetTop, GetRight, GetBottom]
    exact ⟨trivial, trivial, by omega, by omega⟩
  · intro c hca hcp q hq
    rw [Contains_iff_of_nonneg _ _ hpx hpy, MergePoint_eq a p ha] at hq
    rw [Contains_iff_Normalize] at hcp ⊢
    obtain ⟨hax', hay'⟩ := corners_in c a hca
    exact ⟨axis_hull_pt_min _ _ _ _ _ _ hax' hcp.1 hq.1,
      axis_hull_pt_min _ _ _ _ _ _ hay' hcp.2 hq.2⟩

/-- C11 (witness). Merging `[0,10] x [0,10]` (given with negative extents from
`(10,10)`) with `[5,20] x [-5,5]` gives `[0,20] x [-5,10]`; merging it with the
point `(-3,4)` gives `[-3,10] x [0,10]`. -/
theorem Merge_spec_witness :
    Merge ⟨⟨10, 10⟩, ⟨-10, -10⟩, true⟩ ⟨⟨5, -5⟩, ⟨15, 10⟩, true⟩ = ⟨⟨0, -5⟩, ⟨20, 15⟩, true⟩ ∧
      MergePoint ⟨⟨10, 10⟩, ⟨-10, -10⟩, true⟩ ⟨-3, 4⟩ = ⟨⟨-3, 0⟩, ⟨13, 10⟩, true⟩ ∧
      (∀ q : wxPoint, Contains ⟨⟨10, 10⟩, ⟨-10, -10⟩, true⟩ q = true ∨
          Contains ⟨⟨5, -5⟩, ⟨15, 10⟩, true⟩ q = true →
        (Merge ⟨⟨10, 10⟩, ⟨-10, -10⟩, true⟩ ⟨⟨5, -5⟩, ⟨15, 10⟩, true⟩).Contains q = true) :=
  ⟨by decide, by decide,
    (Merge_spec ⟨⟨10, 10⟩, ⟨-10, -10⟩, true⟩ ⟨⟨5, -5⟩, ⟨15, 10⟩, true⟩ ⟨-3, 4⟩ rfl).1.2.1⟩

/-- C12. For an uninitialised rectangle `a`: `a.Merge(b)` with an initialised
`b` is `b` exactly (same position, same size even if negative, initialised);
`a.Merge(b)` with an uninitialised `b` is `a`, unchanged and uninitialised;
`a.Merge(p)` with a point `p` is the initialised rectangle at `p` with size
`(0,0)`. -/
theorem Merge_uninit (a : EDA_RECT) (ha : a.m_init = false) :
    (∀ b : EDA_RECT, b.m_init = true → a.Merge b = b) ∧
      (∀ b : EDA_RECT, b.m_init = false → a.Merge b = a ∧ (a.Merge b).m_init = false) ∧
      (∀ p : wxPoint, a.MergePoint p = ⟨p, ⟨0, 0⟩, true⟩) := by
  refine ⟨?_, ?_, ?_⟩
  · intro b hb
    obtain ⟨bp, bs, bi⟩ := b
    dsimp only at hb
    subst hb
    simp [Merge, ha, IsValid, GetPosition, GetSize]
  · intro b hb
    simp [Merge, ha, IsValid, hb]
  · intro p
    simp [MergePoint, ha]

/-- C12 (witness). The uninitialised rectangle holding `(7,7)`, `(3,-3)` adopts
an initialised rectangle of negative width, ignores an uninitialised one, and
becomes a point rectangle when merged with a point. -/
theorem Merge_uninit_witness :
    Merge ⟨⟨7, 7⟩, ⟨3, -3⟩, false⟩ ⟨⟨1, 2⟩, ⟨-4, 5⟩, true⟩ = ⟨⟨1, 2⟩, ⟨-4, 5⟩, true⟩ ∧
      Merge ⟨⟨7, 7⟩, ⟨3, -3⟩, false⟩ ⟨⟨1, 2⟩, ⟨-4, 5⟩, false⟩ = ⟨⟨7, 7⟩, ⟨3, -3⟩, false⟩ ∧
      MergePoint ⟨⟨7, 7⟩, ⟨3, -3⟩, false⟩ ⟨9, 9⟩ = ⟨⟨9, 9⟩, ⟨0, 0⟩, true⟩ :=
  ⟨(Merge_uninit ⟨⟨7, 7⟩, ⟨3, -3⟩, false⟩ rfl).1 ⟨⟨1, 2⟩, ⟨-4, 5⟩, true⟩ rfl,
    ((Merge_uninit ⟨⟨7, 7⟩, ⟨3, -3⟩, false⟩ rfl).2.1 ⟨⟨1, 2⟩, ⟨-4, 5⟩, false⟩ rfl).1,
    (Merge_uninit ⟨⟨7, 7⟩, ⟨3, -3⟩, false⟩ rfl).2.2 ⟨9, 9⟩⟩

/-- The queries that test `m_init` first answer false (or the uninitialised
rectangle) on an uninitialised receiver, whatever its fields hold. -/
lemma uninit_guarded (r : EDA_RECT) (hr : r.m_init = false)
    (g : EDA_RECT → EDA_RECT → ℚ → Bool) (b : EDA_RECT) (rot : ℚ) (c : wxPoint) (R W : Int) :
    r.Intersects b = false ∧ IntersectsRotated g r b rot = false ∧
      r.IntersectsCircle c R = false ∧ r.IntersectsCircleEdge c R W = false ∧
      (r.Common b).m_init = false := by
  refine ⟨?_, ?_, ?_, ?_, ?_⟩
  · simp [Intersects, hr]
  · simp [IntersectsRotated, hr]
  · simp [IntersectsCircle, hr]
  · simp [IntersectsCircleEdge, hr]
  · simp [Common, Intersects, hr, mkDefault]

/-- C13 (failing input). The default-constructed rectangle is uninitialised
and holds position `(0,0)` and size `(0,0)`; `Contains( wxPoint )` does not
test `m_init` and answers true for the point `(0,0)`, and so does
`Contains( const EDA_RECT& )` for the default rectangle itself. -/
theorem Contains_uninit_true :
    mkDefault.m_init = false ∧ mkDefault.Contains ⟨0, 0⟩ = true ∧
      mkDefault.ContainsRect mkDefault = true := by
  decide

/-- The angle `900` is its own normal form. -/
lemma NORMALIZE_ANGLE_POS_900 : NORMALIZE_ANGLE_POS 900 = 900 := by
  have h : ⌊(900 : ℚ) / 3600⌋ = 0 := by
    rw [Int.floor_eq_iff]
    norm_num
  simp [NORMALIZE_ANGLE_POS, h]

/-- On an initialised receiver the rotation `900` takes the perpendicular fast
path: the argument is replaced by the default rectangle moved to its centre and
inflated by its full height and full width. -/
lemma IntersectsRotated_900 (g : EDA_RECT → EDA_RECT → ℚ → Bool) (a b : EDA_RECT)
    (ha : a.m_init = true) :
    IntersectsRotated g a b 900 =
      a.Intersects ((mkDefault.SetOrigin b.Centre).Inflate b.GetHeight b.GetWidth) := by
  unfold IntersectsRotated
  rw [NORMALIZE_ANGLE_POS_900]
  simp only [ha, Bool.not_true, Bool.false_eq_true, if_false]
  have h1 : ROT_PARALLEL.any (fun x => decide (abs ((900 : ℚ) - x) < ROT_EPS)) = false := by
    simp only [ROT_PARALLEL, ROT_EPS, List.any_cons, List.any_nil]
    norm_num [abs_lt]
  have h2 : (ROT_PERPENDICULAR.take 4).any
      (fun x => decide (abs ((900 : ℚ) - x) < ROT_EPS)) = true := by
    simp only [ROT_PERPENDICULAR, ROT_EPS, List.take, List.any_cons, List.any_nil]
    norm_num [abs_lt]
  rw [h1, h2]
  simp

/-- C14 (failing input). The receiver is the unit square `[0,1] x [0,1]`, the
argument the square at `(2,0)` of size `(2,2)`. The rectangle with the same
centre `(3,1)`, width `2` and height `2` is the argument itself and does not
meet the receiver; the code builds `rotRect` at `(1,-1)` with size `(4,4)`,
twice as wide and twice as high, and answers true. -/
theorem IntersectsRotated_900_doubles (g : EDA_RECT → EDA_RECT → ℚ → Bool) :
    IntersectsRotated g ⟨⟨0, 0⟩, ⟨1, 1⟩, true⟩ ⟨⟨2, 0⟩, ⟨2, 2⟩, true⟩ 900 = true ∧
      Intersects ⟨⟨0, 0⟩, ⟨1, 1⟩, true⟩ (rot90Spec ⟨⟨2, 0⟩, ⟨2, 2⟩, true⟩) = false ∧
      rot90Spec ⟨⟨2, 0⟩, ⟨2, 2⟩, true⟩ = ⟨⟨2, 0⟩, ⟨2, 2⟩, true⟩ ∧
      (mkDefault.SetOrigin (Centre ⟨⟨2, 0⟩, ⟨2, 2⟩, true⟩)).Inflate 2 2 =
        ⟨⟨1, -1⟩, ⟨4, 4⟩, true⟩ := by
  refine ⟨?_, by decide, by decide, by decide⟩
  rw [IntersectsRotated_900 g _ _ rfl]
  decide

end EDA_RECT

namespace SEG

/-- The remainder of the truncating quotient is smaller than the divisor and has
the sign of the dividend. -/
lemma tmod_bounds (m d : Int) (hd : d ≠ 0) :
    (0 ≤ m → 0 ≤ Int.tmod m d ∧ Int.tmod m d < |d|) ∧
      (m ≤ 0 → -|d| < Int.tmod m d ∧ Int.tmod m d ≤ 0) := by
  have hpos : 0 < |d| := abs_pos.mpr hd
  have key : ∀ a : Int, 0 ≤ a → 0 ≤ Int.tmod a d ∧ Int.tmod a d < |d| := by
    intro a ha
    refine ⟨Int.tmod_nonneg d ha, ?_⟩
    rcases lt_or_gt_of_ne hd with h | h
    · have := Int.tmod_lt_of_pos a (by omega : 0 < -d)
      rw [Int.tmod_neg] at this
      rw [abs_of_neg h]
      exact this
    · rw [abs_of_pos h]
      exact Int.tmod_lt_of_pos a h
  refine ⟨key m, ?_⟩
  intro hm
  have := key (-m) (by omega)
  have e : Int.tmod (-m) d = -Int.tmod m d := by
    rw [Int.tmod_def, Int.tmod_def, Int.neg_tdiv]
    ring
  rw [e] at this
  omega

/-- The truncating `rescale` is less than one away from the exact quotient. -/
lemma IsRescale_rescale : IsRescale rescale := by
  intro n v d hd
  have h := Int.tdiv_add_tmod (n * v) d
  obtain ⟨h1, h2⟩ := tmod_bounds (n * v) d hd
  have e : rescale n v d * d - n * v = -Int.tmod (n * v) d := by
    unfold rescale
    linarith
  rw [e, abs_neg, abs_lt]
  rcases le_total 0 (n * v) with h0 | h0
  · have := h1 h0
    constructor <;> linarith
  · have := h2 h0
    constructor <;> linarith

/-- With the truncating `rescale` the parametrised nearest point is
`NearestPointPt`. -/
lemma NearestPointPtWith_rescale (s : SEG) (P : VECTOR2I) :
    s.NearestPointPtWith rescale P = s.NearestPointPt P := rfl

/-- With the truncating `rescale` the parametrised intersection is `Intersect`. -/
lemma IntersectWith_rescale (s t : SEG) (i l : Bool) :
    s.IntersectWith rescale t i l = s.Intersect t i l := rfl

/-- C21 (failing input). For `s1 = (0,0)-(10,0)` and `s2 = (0,5)-(10,5)` the four
candidate distances are all `25` and `NearestPoint` returns the first candidate,
`s2.NearestPoint( s1.A ) = (0,5)`: a point of `s2`, not of `s1`. `s1.Contains`
rejects it, and its squared distance to `s2` is `0`, not
`s1.SquaredDistance( s2 ) = 25`. -/
theorem NearestPoint_on_other_segment :
    NearestPoint ⟨⟨0, 0⟩, ⟨10, 0⟩⟩ ⟨⟨0, 5⟩, ⟨10, 5⟩⟩ = ⟨0, 5⟩ ∧
      Contains ⟨⟨0, 0⟩, ⟨10, 0⟩⟩ (NearestPoint ⟨⟨0, 0⟩, ⟨10, 0⟩⟩ ⟨⟨0, 5⟩, ⟨10, 5⟩⟩) = false ∧
      SquaredDistancePt ⟨⟨0, 5⟩, ⟨10, 5⟩⟩
        (NearestPoint ⟨⟨0, 0⟩, ⟨10, 0⟩⟩ ⟨⟨0, 5⟩, ⟨10, 5⟩⟩) = 0 ∧
      SquaredDistance ⟨⟨0, 0⟩, ⟨10, 0⟩⟩ ⟨⟨0, 5⟩, ⟨10, 5⟩⟩ = 25 := by
  decide

/-- When `Intersect` returns a point, `NearestPoint` returns that point. -/
lemma NearestPoint_of_Intersect (s t : SEG) (P : VECTOR2I)
    (h : s.Intersect t false false = some P) : s.NearestPoint t = P := by
  simp [NearestPoint, h]

/-- A difference that fits in 32 bits is not changed by the 32-bit wrap. -/
lemma wrap32_of_fits (z : Int) (h1 : -2 ^ 31 ≤ z) (h2 : z < 2 ^ 31) : wrap32 z = z := by
  unfold wrap32
  norm_num at h1 h2 ⊢
  omega

/-- A value that fits in 64 bits is not changed by the 64-bit wrap. -/
lemma wrap64_of_fits (z : Int) (h1 : -2 ^ 63 ≤ z) (h2 : z < 2 ^ 63) : wrap64 z = z := by
  unfold wrap64
  norm_num at h1 h2 ⊢
  omega

/-- The product of two 32-bit values lies between `-(2^62 - 2^31)` and `2^62`. -/
lemma mul_fits (a b : Int) (ha1 : -2 ^ 31 ≤ a) (ha2 : a < 2 ^ 31) (hb1 : -2 ^ 31 ≤ b)
    (hb2 : b < 2 ^ 31) : -(2 ^ 62 - 2 ^ 31) ≤ a * b ∧ a * b ≤ 2 ^ 62 := by
  norm_num at *
  constructor
  · nlinarith [mul_nonneg (by linarith : (0 : Int) ≤ a + 2147483648)
      (by linarith : (0 : Int) ≤ 2147483647 - b),
      mul_nonneg (by linarith : (0 : Int) ≤ 2147483647 - a)
      (by linarith : (0 : Int) ≤ b + 2147483648)]
  · nlinarith [mul_nonneg (by linarith : (0 : Int) ≤ a + 2147483648)
      (by linarith : (0 : Int) ≤ b + 2147483648),
      mul_nonneg (by linarith : (0 : Int) ≤ 2147483647 - a)
      (by linarith : (0 : Int) ≤ 2147483647 - b)]

/-- The 64-bit cross product of two vectors with 32-bit components is exact. -/
lemma Cross64_of_fits (a b : VECTOR2I) (ha : IsInt32 a) (hb : IsInt32 b) :
    Cross64 a b = a.Cross b := by
  obtain ⟨⟨a1, a2⟩, a3, a4⟩ := ha
  obtain ⟨⟨b1, b2⟩, b3, b4⟩ := hb
  have m1 := mul_fits a.x b.y a1 a2 b3 b4
  have m2 := mul_fits a.y b.x a3 a4 b1 b2
  unfold Cross64 VECTOR2I.Cross
  rw [wrap64_of_fits (a.x * b.y) (by norm_num at m1 ⊢; omega) (by norm_num at m1 ⊢; omega),
    wrap64_of_fits (a.y * b.x) (by norm_num at m2 ⊢; omega) (by norm_num at m2 ⊢; omega)]
  exact wrap64_of_fits _ (by norm_num at m1 m2 ⊢; omega) (by norm_num at m1 m2 ⊢; omega)

/-- The 32-bit difference of two points is exact when it fits in 32 bits. -/
lemma sub32_of_fits (a b : VECTOR2I) (h : IsInt32 (a.sub b)) : sub32 a b = a.sub b := by
  obtain ⟨⟨h1, h2⟩, h3, h4⟩ := h
  simp only [VECTOR2I.sub] at h1 h2 h3 h4
  simp only [sub32, VECTOR2I.sub, wrap32_of_fits _ h1 h2, wrap32_of_fits _ h3 h4]

/-- When the three coordinate differences formed by `Intersect` fit in 32 bits,
the machine values of `d`, `p` and `q` are the exact ones. -/
lemma Intersect_machine_of_fits (s t : SEG) (he : IsInt32 (s.B.sub s.A))
    (hf : IsInt32 (t.B.sub t.A)) (hac : IsInt32 (t.A.sub s.A)) :
    s.Intersect_d_machine t = s.Intersect_d t ∧ s.Intersect_p_machine t = s.Intersect_p t ∧
      s.Intersect_q_machine t = s.Intersect_q t := by
  unfold Intersect_d_machine Intersect_p_machine Intersect_q_machine
  rw [sub32_of_fits _ _ he, sub32_of_fits _ _ hf, sub32_of_fits _ _ hac]
  exact ⟨Cross64_of_fits _ _ hf he, Cross64_of_fits _ _ hf hac, Cross64_of_fits _ _ he hac⟩

/-- C23 (failing input). All end points of `s = (-2^31,0)-(2^31-1,0)` and
`t = (0,-1)-(0,1)` have 32-bit coordinates, yet the 32-bit difference `B - A` of
`s` wraps to `(-1,0)` instead of `(2^32-1,0)`, so `Intersect` computes `d = 2`
and `p = 2^32` where the exact values are `-(2^33-2)` and `-2^32`; and the left
side of the comparison `ccw(s.A, s.B, t.B)` is computed as `-1` where the exact
product is `2^32-1`, which changes the result of the comparison. -/
theorem Intersect_difference_wraps :
    (IsInt32 ⟨-2147483648, 0⟩ ∧ IsInt32 ⟨2147483647, 0⟩ ∧ IsInt32 ⟨0, -1⟩ ∧ IsInt32 ⟨0, 1⟩) ∧
      sub32 ⟨2147483647, 0⟩ ⟨-2147483648, 0⟩ = ⟨-1, 0⟩ ∧
      VECTOR2I.sub ⟨2147483647, 0⟩ ⟨-2147483648, 0⟩ = ⟨4294967295, 0⟩ ∧
      Intersect_d_machine ⟨⟨-2147483648, 0⟩, ⟨2147483647, 0⟩⟩ ⟨⟨0, -1⟩, ⟨0, 1⟩⟩ = 2 ∧
      Intersect_d ⟨⟨-2147483648, 0⟩, ⟨2147483647, 0⟩⟩ ⟨⟨0, -1⟩, ⟨0, 1⟩⟩ = -8589934590 ∧
      Intersect_p_machine ⟨⟨-2147483648, 0⟩, ⟨2147483647, 0⟩⟩ ⟨⟨0, -1⟩, ⟨0, 1⟩⟩ = 4294967296 ∧
      Intersect_p ⟨⟨-2147483648, 0⟩, ⟨2147483647, 0⟩⟩ ⟨⟨0, -1⟩, ⟨0, 1⟩⟩ = -4294967296 ∧
      ccw_lhs_machine ⟨-2147483648, 0⟩ ⟨2147483647, 0⟩ ⟨0, 1⟩ = -1 ∧
      ccw_rhs_machine ⟨-2147483648, 0⟩ ⟨2147483647, 0⟩ ⟨0, 1⟩ = 0 ∧
      ccw ⟨-2147483648, 0⟩ ⟨2147483647, 0⟩ ⟨0, 1⟩ = true := by
  refine ⟨⟨?_, ?_, ?_, ?_⟩, ?_, ?_, ?_, ?_, ?_, ?_, ?_, ?_, ?_⟩
  · unfold IsInt32; norm_num
  · unfold IsInt32; norm_num
  · unfold IsInt32; norm_num
  · unfold IsInt32; norm_num
  · decide
  · decide
  · decide
  · decide
  · decide
  · decide
  · decide
  · decide
  · decide

end SEG

namespace EDA_RECT

/-- C30 (failing input). The initialised rectangle `a` at `(5,5)` with size
`(10,10)` does not contain `(0,0)`. Merging the default-constructed rectangle
`u`, which is uninitialised and not valid, grows `a` to position `(0,0)` and size
`(15,15)`, which contains `(0,0)`: the initialised branch of `Merge` reads the
position and size of `u` without testing `u.IsValid()`, unlike the
uninitialised branch. -/
theorem Merge_uninit_argument_grows :
    mkDefault.m_init = false ∧ mkDefault.IsValid = false ∧
      Contains ⟨⟨5, 5⟩, ⟨10, 10⟩, true⟩ ⟨0, 0⟩ = false ∧
      Merge ⟨⟨5, 5⟩, ⟨10, 10⟩, true⟩ mkDefault = ⟨⟨0, 0⟩, ⟨15, 15⟩, true⟩ ∧
      Contains (Merge ⟨⟨5, 5⟩, ⟨10, 10⟩, true⟩ mkDefault) ⟨0, 0⟩ = true := by
  decide

end EDA_RECT

open VERTEX_TYPE STROKE_T

namespace CADSTAR_PCB_ARCHIVE_LOADER

/-- The loop of `getDrawSegmentsFromVertices` makes one primitive for each
vertex after `prev`. -/
lemma drawSegmentsLoop_length (L : CADSTAR_PCB_ARCHIVE_LOADER) (D : LOADER_DEPS)
    (T : TRANSFORM_ARGS) (prev : VERTEX) (rest : List VERTEX) :
    (L.drawSegmentsLoop D T prev rest).length = rest.length := by
  induction rest generalizing prev with
  | nil => rfl
  | cons cur rest ih => simp [drawSegmentsLoop, ih]

/-- The primitive at index `i` of the loop of `getDrawSegmentsFromVertices` is
made from the vertices at indices `i` and `i + 1` of the chain. -/
lemma drawSegmentsLoop_getElem (L : CADSTAR_PCB_ARCHIVE_LOADER) (D : LOADER_DEPS)
    (T : TRANSFORM_ARGS) (prev : VERTEX) (rest : List VERTEX) (i : Nat) (p c : VERTEX)
    (hp : (prev :: rest)[i]? = some p) (hc : rest[i]? = some c) :
    (L.drawSegmentsLoop D T prev rest)[i]? = some (L.getDrawSegmentFromVertex D p.End c T) := by
  induction rest generalizing prev i with
  | nil => simp at hc
  | cons cur rest ih =>
    cases i with
    | zero =>
      simp only [List.getElem?_cons_zero, Option.some.injEq] at hp hc
      subst hp hc
      simp [drawSegmentsLoop]
    | succ j =>
      simp only [List.getElem?_cons_succ] at hp hc
      simp only [drawSegmentsLoop, List.getElem?_cons_succ]
      exact ih cur j hp hc

/-- The loop of `getDrawSegmentsFromVertices` reads only the end point of the
vertex before the remaining ones. -/
lemma drawSegmentsLoop_prev (L : CADSTAR_PCB_ARCHIVE_LOADER) (D : LOADER_DEPS)
    (T : TRANSFORM_ARGS) (prev prev2 : VERTEX) (rest : List VERTEX) (h : prev.End = prev2.End) :
    L.drawSegmentsLoop D T prev rest = L.drawSegmentsLoop D T prev2 rest := by
  cases rest with
  | nil => rfl
  | cons cur rest => simp [drawSegmentsLoop, h]

/-- C24. For every vertex list `vs` of length `n`, `getDrawSegmentsFromVertices`
returns the empty list when `n < 2`; in every case it returns `n - 1` primitives,
the one at index `i` (counting from `0`) being `getDrawSegmentFromVertex` applied
to the end point of vertex `i` and to vertex `i + 1`. That primitive is the
transformation of a straight segment from the converted start point to the
converted end point of the vertex when the vertex is a point vertex, and of an
arc starting at the converted start point for the four arc and semicircle
kinds. Of vertex `0` only the end point is used: replacing its kind and its
centre does not change the result. -/
theorem getDrawSegmentsFromVertices_spec (L : CADSTAR_PCB_ARCHIVE_LOADER) (D : LOADER_DEPS)
    (T : TRANSFORM_ARGS) (vs : List VERTEX) :
    (vs.length < 2 → L.getDrawSegmentsFromVertices D vs T = []) ∧
      (L.getDrawSegmentsFromVertices D vs T).length = vs.length - 1 ∧
      (∀ (i : Nat) (p c : VERTEX), vs[i]? = some p → vs[i + 1]? = some c →
        (L.getDrawSegmentsFromVertices D vs T)[i]? =
          some (L.getDrawSegmentFromVertex D p.End c T)) ∧
      (∀ (s : wxPoint) (v : VERTEX), ∃ ds : DRAWSEGMENT,
        L.getDrawSegmentFromVertex D s v T = applyTransforms D T ds ∧
          (v.Type_ = POINT → ds.m_Shape = S_SEGMENT ∧ ds.m_Start = L.getKiCadPoint s ∧
            ds.m_End = L.getKiCadPoint v.End) ∧
          (v.Type_ ≠ POINT → ds.m_Shape = S_ARC ∧ ds.GetArcStart = L.getKiCadPoint s)) ∧
      (∀ (v0 : VERTEX) (rest : List VERTEX) (t : VERTEX_TYPE) (c : wxPoint),
        L.getDrawSegmentsFromVertices D (v0 :: rest) T =
          L.getDrawSegmentsFromVertices D (⟨t, c, v0.End⟩ :: rest) T) := by
  refine ⟨?_, ?_, ?_, ?_, ?_⟩
  · intro h
    simp [getDrawSegmentsFromVertices, h]
  · unfold getDrawSegmentsFromVertices
    split_ifs with h
    · simp only [List.length_nil]
      omega
    · cases vs with
      | nil => simp
      | cons v0 rest => simp [drawSegmentsLoop_length]
  · intro i p c hp hc
    cases vs with
    | nil => simp at hp
    | cons v0 rest =>
      simp only [List.getElem?_cons_succ] at hc
      have hlen : ¬ (v0 :: rest).length < 2 := by
        have := List.getElem?_eq_some_iff.mp hc
        obtain ⟨hlt, _⟩ := this
        simp only [List.length_cons]
        omega
      simp only [getDrawSegmentsFromVertices, hlen, if_false]
      exact drawSegmentsLoop_getElem L D T v0 rest i p c hp hc
  · intro s v
    refine ⟨L.newDrawSegment D s v T.aContainerIsModule, rfl, ?_, ?_⟩
    · intro hv
      simp [newDrawSegment, hv, DRAWSEGMENT.mk0, DRAWSEGMENT.SetStart, DRAWSEGMENT.SetEnd]
    · intro hv
      cases hk : v.Type_ with
      | POINT => exact absurd hk hv
      | CLOCKWISE_ARC =>
        simp [newDrawSegment, hk, DRAWSEGMENT.mk0, DRAWSEGMENT.SetArcStart,
          DRAWSEGMENT.SetCenter, DRAWSEGMENT.SetAngle, DRAWSEGMENT.GetArcStart]
      | CLOCKWISE_SEMICIRCLE =>
        simp [newDrawSegment, hk, DRAWSEGMENT.mk0, DRAWSEGMENT.SetArcStart,
          DRAWSEGMENT.SetCenter, DRAWSEGMENT.SetAngle, DRAWSEGMENT.GetArcStart]
      | ANTICLOCKWISE_ARC =>
        simp [newDrawSegment, hk, DRAWSEGMENT.mk0, DRAWSEGMENT.SetArcStart,
          DRAWSEGMENT.SetCenter, DRAWSEGMENT.SetAngle, DRAWSEGMENT.GetArcStart]
      | ANTICLOCKWISE_SEMICIRCLE =>
        simp [newDrawSegment, hk, DRAWSEGMENT.mk0, DRAWSEGMENT.SetArcStart,
          DRAWSEGMENT.SetCenter, DRAWSEGMENT.SetAngle, DRAWSEGMENT.GetArcStart]
  · intro v0 rest t c
    unfold getDrawSegmentsFromVertices
    simp only [List.length_cons]
    split_ifs with h
    · rfl
    · exact drawSegmentsLoop_prev L D T v0 ⟨t, c, v0.End⟩ rest rfl

end CADSTAR_PCB_ARCHIVE_LOADER

open VERTEX_TYPE STROKE_T

namespace CADSTAR_PCB_ARCHIVE_LOADER

/-- Without a requested transformation the primitive is returned as built. -/
lemma applyTransforms_identity (D : LOADER_DEPS) (ds : DRAWSEGMENT) :
    applyTransforms D TRANSFORM_ARGS.identity ds = ds := by
  simp [applyTransforms, TRANSFORM_ARGS.identity]

/-- C26 (failing input). The vertex chain of the two point vertices `(0,0)` and
`(10,0)` is converted into a single straight segment, and
`getLineChainFromDrawsegments` returns for it the chain of the two points
`(0,0)` and `(10,0)` with the closed flag set: a closed chain of two points,
which is not empty, although the function itself states
`wxASSERT( lineChain.PointCount() > 2 )` before it returns. -/
theorem getLineChainFromDrawsegments_two_points (D : LOADER_DEPS) :
    getLineChainFromDrawsegments D
        (getDrawSegmentsFromVertices ⟨⟨0, 0⟩, 1⟩ D
          [⟨POINT, ⟨0, 0⟩, ⟨0, 0⟩⟩, ⟨POINT, ⟨0, 0⟩, ⟨10, 0⟩⟩] TRANSFORM_ARGS.identity) =
        ⟨[⟨0, 0⟩, ⟨10, 0⟩], true⟩ ∧
      (getLineChainFromDrawsegments D
        (getDrawSegmentsFromVertices ⟨⟨0, 0⟩, 1⟩ D
          [⟨POINT, ⟨0, 0⟩, ⟨0, 0⟩⟩, ⟨POINT, ⟨0, 0⟩, ⟨10, 0⟩⟩]
          TRANSFORM_ARGS.identity)).PointCount = 2 := by
  have h : getDrawSegmentsFromVertices ⟨⟨0, 0⟩, 1⟩ D
      [⟨POINT, ⟨0, 0⟩, ⟨0, 0⟩⟩, ⟨POINT, ⟨0, 0⟩, ⟨10, 0⟩⟩] TRANSFORM_ARGS.identity =
      [⟨false, S_SEGMENT, ⟨0, 0⟩, ⟨10, 0⟩, 0, ⟨0, 0⟩, ⟨0, 0⟩⟩] := by
    have e : TRANSFORM_ARGS.identity.aContainerIsModule = false := rfl
    simp [getDrawSegmentsFromVertices, drawSegmentsLoop, getDrawSegmentFromVertex,
      applyTransforms_identity, newDrawSegment, DRAWSEGMENT.mk0, DRAWSEGMENT.SetStart,
      DRAWSEGMENT.SetEnd, getKiCadPoint, e]
  rw [h]
  constructor
  · simp [getLineChainFromDrawsegments, appendDrawsegment, SHAPE_LINE_CHAIN.Append,
      SHAPE_LINE_CHAIN.empty, SHAPE_LINE_CHAIN.SetClosed]
  · simp [getLineChainFromDrawsegments, appendDrawsegment, SHAPE_LINE_CHAIN.Append,
      SHAPE_LINE_CHAIN.empty, SHAPE_LINE_CHAIN.SetClosed, SHAPE_LINE_CHAIN.PointCount]

end CADSTAR_PCB_ARCHIVE_LOADER

namespace ZONE_CREATE_HELPER

/-- The hole loop of `performZoneCutout` copies the holes of a polygon one by
one, in their order. -/
lemma holes_fold (R : SHAPE_POLY_SET) (k : Nat) (p : POLYGON) (hp : R.m_polys[k]? = some p)
    (n : Nat) (hn : n ≤ p.holes.length) :
    (List.range n).foldl (fun ps hole => SHAPE_POLY_SET.AddHole ps (R.CHole k hole))
        (SHAPE_POLY_SET.empty.AddOutline p.outline) = ⟨[⟨p.outline, p.holes.take n⟩]⟩ := by
  induction n with
  | zero => simp [SHAPE_POLY_SET.AddOutline, SHAPE_POLY_SET.empty]
  | succ m ih =>
    have hm : m < p.holes.length := hn
    have e : p.holes[m]? = some p.holes[m] := List.getElem?_eq_getElem hm
    have hc : R.CHole k m = p.holes[m] := by
      simp [SHAPE_POLY_SET.CHole, hp, e]
    have ht : p.holes.take (m + 1) = p.holes.take m ++ [p.holes[m]] := by
      rw [List.take_succ, e]
      rfl
    rw [List.range_succ, List.foldl_append, ih (Nat.le_of_lt hm), ht]
    simp only [List.foldl_cons, List.foldl_nil, hc, SHAPE_POLY_SET.AddHole,
      List.getLast?_singleton, List.dropLast_single, List.nil_append]

/-- The body of the outline loop makes the expected zone for the polygon at
its index. -/
lemma newZoneOfOutline_eq (D : ZONE_DEPS) (aZone : ZONE_CONTAINER) (R : SHAPE_POLY_SET)
    (k : Nat) (p : POLYGON) (hp : R.m_polys[k]? = some p) :
    newZoneOfOutline D aZone R k = zoneOfPolygon D aZone p := by
  have h1 : R.HoleCount k = p.holes.length := by simp [SHAPE_POLY_SET.HoleCount, hp]
  have h2 : R.Outline k = p.outline := by simp [SHAPE_POLY_SET.Outline, hp]
  unfold newZoneOfOutline zoneOfPolygon
  simp only [h1, h2, holes_fold R k p hp p.holes.length le_rfl, List.take_length]

/-- The outline loop of `performZoneCutout` makes the expected zones in the
order of the polygons and stages their addition in the same order. -/
lemma outline_fold (D : ZONE_DEPS) (aZone : ZONE_CONTAINER) (R : SHAPE_POLY_SET) (n : Nat)
    (hn : n ≤ R.m_polys.length) :
    (List.range n).foldl
        (fun (st : List ZONE_CONTAINER × BOARD_COMMIT) outline =>
          (st.1 ++ [newZoneOfOutline D aZone R outline],
            st.2.Add (newZoneOfOutline D aZone R outline)))
        ([], ⟨[]⟩) =
      ((R.m_polys.take n).map (zoneOfPolygon D aZone),
        ⟨(R.m_polys.take n).map (fun p => (CHANGE_TYPE.CHT_ADD, zoneOfPolygon D aZone p))⟩) := by
  induction n with
  | zero => simp
  | succ m ih =>
    have hm : m < R.m_polys.length := hn
    have e : R.m_polys[m]? = some R.m_polys[m] := List.getElem?_eq_getElem hm
    have ht : R.m_polys.take (m + 1) = R.m_polys.take m ++ [R.m_polys[m]] := by
      rw [List.take_succ, e]
      rfl
    rw [List.range_succ, List.foldl_append, ih (Nat.le_of_lt hm), ht]
    simp only [List.foldl_cons, List.foldl_nil, BOARD_COMMIT.Add, List.map_append,
      List.map_cons, List.map_nil, newZoneOfOutline_eq D aZone R m _ e]

/-- Closed form of `performZoneCutout`: the new zones are the expected zones of
the polygons of the subtraction result, in order, and the commit stages their
additions followed by the removal of the original zone. -/
lemma performZoneCutout_eq (D : ZONE_DEPS) (aZone aCutout : ZONE_CONTAINER) :
    performZoneCutout D aZone aCutout =
      if (!D.Fill ((D.BooleanSubtract aZone.m_Poly aCutout.m_Poly).m_polys.map
          (zoneOfPolygon D aZone))) = true then
        Except.ok
          ⟨(D.BooleanSubtract aZone.m_Poly aCutout.m_Poly).m_polys.map (zoneOfPolygon D aZone),
            ⟨(D.BooleanSubtract aZone.m_Poly aCutout.m_Poly).m_polys.map
                (fun p => (CHANGE_TYPE.CHT_ADD, zoneOfPolygon D aZone p)) ++
              [(CHANGE_TYPE.CHT_REMOVE, aZone)]⟩, false, none⟩
      else
        match ((D.BooleanSubtract aZone.m_Poly aCutout.m_Poly).m_polys.map
            (zoneOfPolygon D aZone)).get? 0 with
        | none =>
          Except.error
            ⟨⟨(D.BooleanSubtract aZone.m_Poly aCutout.m_Poly).m_polys.map
                (fun p => (CHANGE_TYPE.CHT_ADD, zoneOfPolygon D aZone p)) ++
              [(CHANGE_TYPE.CHT_REMOVE, aZone)]⟩⟩
        | some z =>
          Except.ok
            ⟨(D.BooleanSubtract aZone.m_Poly aCutout.m_Poly).m_polys.map (zoneOfPolygon D aZone),
              ⟨(D.BooleanSubtract aZone.m_Poly aCutout.m_Poly).m_polys.map
                  (fun p => (CHANGE_TYPE.CHT_ADD, zoneOfPolygon D aZone p)) ++
                [(CHANGE_TYPE.CHT_REMOVE, aZone)]⟩, true, some z⟩ := by
  unfold performZoneCutout
  simp only [SHAPE_POLY_SET.OutlineCount,
    outline_fold D aZone (D.BooleanSubtract aZone.m_Poly aCutout.m_Poly) _ le_rfl,
    List.take_length, BOARD_COMMIT.Remove]

/-- C27. Let the subtraction result have the polygons `P_0, ..., P_(N-1)`.
The new zones of `performZoneCutout` are `N` copies of the original zone, in
the order of the polygons, the `k`-th one having as its outline set the polygon
`P_k` alone, that is outline `k` with exactly its holes in their order; the
commit stages the addition of these zones in order and then the removal of the
original zone. When the fill fails the commit is reverted and no source zone is
stored; when the fill succeeds and there is a first new zone, the commit is
pushed and the first new zone is stored as the source zone. -/
theorem performZoneCutout_spec (D : ZONE_DEPS) (aZone aCutout : ZONE_CONTAINER) :
    ((D.BooleanSubtract aZone.m_Poly aCutout.m_Poly).m_polys.map
        (zoneOfPolygon D aZone)).length =
        (D.BooleanSubtract aZone.m_Poly aCutout.m_Poly).OutlineCount ∧
      (∀ (k : Nat) (p : POLYGON),
        (D.BooleanSubtract aZone.m_Poly aCutout.m_Poly).m_polys[k]? = some p →
        (((D.BooleanSubtract aZone.m_Poly aCutout.m_Poly).m_polys.map
          (zoneOfPolygon D aZone))[k]?).map ZONE_CONTAINER.m_Poly = some ⟨[p]⟩) ∧
      (D.Fill ((D.BooleanSubtract aZone.m_Poly aCutout.m_Poly).m_polys.map
          (zoneOfPolygon D aZone)) = false →
        performZoneCutout D aZone aCutout =
          Except.ok
            ⟨(D.BooleanSubtract aZone.m_Poly aCutout.m_Poly).m_polys.map (zoneOfPolygon D aZone),
              ⟨(D.BooleanSubtract aZone.m_Poly aCutout.m_Poly).m_polys.map
                  (fun p => (CHANGE_TYPE.CHT_ADD, zoneOfPolygon D aZone p)) ++
                [(CHANGE_TYPE.CHT_REMOVE, aZone)]⟩, false, none⟩) ∧
      (∀ z : ZONE_CONTAINER,
        D.Fill ((D.BooleanSubtract aZone.m_Poly aCutout.m_Poly).m_polys.map
          (zoneOfPolygon D aZone)) = true →
        ((D.BooleanSubtract aZone.m_Poly aCutout.m_Poly).m_polys.map
          (zoneOfPolygon D aZone))[0]? = some z →
        performZoneCutout D aZone aCutout =
          Except.ok
            ⟨(D.BooleanSubtract aZone.m_Poly aCutout.m_Poly).m_polys.map (zoneOfPolygon D aZone),
              ⟨(D.BooleanSubtract aZone.m_Poly aCutout.m_Poly).m_polys.map
                  (fun p => (CHANGE_TYPE.CHT_ADD, zoneOfPolygon D aZone p)) ++
                [(CHANGE_TYPE.CHT_REMOVE, aZone)]⟩, true, some z⟩) := by
  refine ⟨?_, ?_, ?_, ?_⟩
  · simp [SHAPE_POLY_SET.OutlineCount]
  · intro k p hp
    simp [List.getElem?_map, hp, zoneOfPolygon]
  · intro hF
    rw [performZoneCutout_eq, hF]
    rfl
  · intro z hF hz
    rw [performZoneCutout_eq, hF, List.get?_eq_getElem?, hz]
    rfl

/-- C28 (failing input). The subtraction returns a set without outlines and the
filler returns `true`. Then `performZoneCutout` makes no zone, stages only the
removal of the original zone, pushes the commit and reads `newZones[0]` although
`newZones` is empty. When the filler returns `false` on the same input, the
commit is reverted and no element is read. -/
theorem performZoneCutout_no_outline_reads_first (h : ZONE_CONTAINER → List SEG)
    (aZone aCutout : ZONE_CONTAINER) :
    performZoneCutout ⟨fun _ _ => ⟨[]⟩, h, fun _ => true⟩ aZone aCutout =
        Except.error ⟨⟨[(CHANGE_TYPE.CHT_REMOVE, aZone)]⟩⟩ ∧
      performZoneCutout ⟨fun _ _ => ⟨[]⟩, h, fun _ => false⟩ aZone aCutout =
        Except.ok ⟨[], ⟨[(CHANGE_TYPE.CHT_REMOVE, aZone)]⟩, false, none⟩ := by
  constructor
  · rw [performZoneCutout_eq]
    rfl
  · rw [performZoneCutout_eq]
    rfl

end ZONE_CREATE_HELPER
